import Mathlib

/-!
Verification of the stock-ledger core of the KGLAssignment backend.

The ledger (Mongo collection `Inventory`) is modelled as an association list of
documents keyed by (produceName, produceType, branch); quantities and prices are
rationals.  Every controller mutation goes through a model of Mongo's
`findOneAndUpdate` (optionally guarded by a `stockKg: {$gte: c}` clause in the
query, optionally upserting), exactly as in the source.  Fallible persistence
steps (`Model.create`, `doc.save`, `Model.deleteOne`) are modelled by boolean
failure-injection parameters, so that the compensation / rollback paths of the
controllers are part of the model.
-/

namespace KGL

structure Key where
  produceName : String
  produceType : String
  branch : String
deriving DecidableEq, Repr

structure StockRec where
  stockKg : ℚ
  sellingPrice : ℚ
deriving DecidableEq, Repr

/-- The Inventory collection: a list of documents.  The unique compound index on
(produceName, produceType, branch) is the `KeysUnique` invariant below. -/
abbrev Ledger := List (Key × StockRec)

/-- `findOne {key}` / first document whose key matches. -/
def lookup : Ledger → Key → Option StockRec
  | [], _ => none
  | e :: rest, k => if e.1 = k then some e.2 else lookup rest k

/-- Replace the first document with key `k` by `r'` (no-op when absent). -/
def replace (k : Key) (r' : StockRec) : Ledger → Ledger
  | [] => []
  | e :: rest => if e.1 = k then (e.1, r') :: rest else e :: replace k r' rest

/-- Mongo `findOneAndUpdate({...key, <pred>}, <update f>, {new : true})` without
upsert: rewrites the first document whose key is `k` and whose record satisfies
`p`; returns the post-update document, or `none` (state unchanged) when no
document matches. -/
def fOAU (k : Key) (p : StockRec → Bool) (f : StockRec → StockRec) :
    Ledger → Option StockRec × Ledger
  | [] => (none, [])
  | e :: rest =>
    if e.1 = k ∧ p e.2 = true then
      (some (f e.2), (e.1, f e.2) :: rest)
    else
      ((fOAU k p f rest).1, e :: (fOAU k p f rest).2)

/-- Mongo `findOneAndUpdate({key}, <update f>, {new:true, upsert:true})`: the
query is the bare key; when no document matches, a fresh document `ins`
(defaults + the update applied) is inserted. -/
def fOAUup (k : Key) (f : StockRec → StockRec) (ins : StockRec) (st : Ledger) :
    StockRec × Ledger :=
  match fOAU k (fun _ => true) f st with
  | (some r, st2) => (r, st2)
  | (none, _) => (ins, st ++ [(k, ins)])

/-- The unique compound index on (produceName, produceType, branch). -/
def KeysUnique (st : Ledger) : Prop :=
  (st.map Prod.fst).Nodup

/-! ### Characterisation of the primitives via `lookup` / `replace` -/

theorem lookup_eq_none_iff {st : Ledger} {k : Key} :
    lookup st k = none ↔ ∀ e ∈ st, e.1 ≠ k := by
  induction st with
  | nil => simp [lookup]
  | cons e rest ih =>
    by_cases h : e.1 = k <;> simp [lookup, h, ih]

theorem lookup_some_mem {st : Ledger} {k : Key} {r : StockRec}
    (h : lookup st k = some r) : (k, r) ∈ st := by
  induction st with
  | nil => simp [lookup] at h
  | cons e rest ih =>
    by_cases he : e.1 = k
    · simp [lookup, he] at h
      rcases e with ⟨ek, er⟩
      simp_all
    · simp [lookup, he] at h
      exact List.mem_cons_of_mem _ (ih h)

theorem replace_of_lookup_none {st : Ledger} {k : Key} {r' : StockRec}
    (h : lookup st k = none) : replace k r' st = st := by
  induction st with
  | nil => rfl
  | cons e rest ih =>
    by_cases he : e.1 = k
    · simp [lookup, he] at h
    · simp [lookup, he] at h
      simp [replace, he, ih h]

theorem fOAU_of_lookup_none {st : Ledger} {k : Key}
    (p : StockRec → Bool) (f : StockRec → StockRec)
    (h : lookup st k = none) : fOAU k p f st = (none, st) := by
  induction st with
  | nil => rfl
  | cons e rest ih =>
    by_cases he : e.1 = k <;> simp [lookup, he] at h
    · simp [fOAU, he, ih h]

theorem fOAU_of_lookup_pos {st : Ledger} {k : Key} {r : StockRec}
    (p : StockRec → Bool) (f : StockRec → StockRec)
    (h : lookup st k = some r) (hp : p r = true) :
    fOAU k p f st = (some (f r), replace k (f r) st) := by
  induction st with
  | nil => simp [lookup] at h
  | cons e rest ih =>
    by_cases he : e.1 = k
    · simp [lookup, he] at h
      subst h
      simp [fOAU, replace, he, hp]
    · simp [lookup, he] at h
      simp [fOAU, replace, he, ih h]

theorem fOAU_of_guard_fail {st : Ledger} {k : Key} {r : StockRec}
    (p : StockRec → Bool) (f : StockRec → StockRec)
    (hu : KeysUnique st) (h : lookup st k = some r) (hp : p r = false) :
    fOAU k p f st = (none, st) := by
  induction st with
  | nil => simp [lookup] at h
  | cons e rest ih =>
    rw [KeysUnique, List.map_cons, List.nodup_cons] at hu
    by_cases he : e.1 = k
    · simp [lookup, he] at h
      subst h
      have hrest : lookup rest k = none := by
        rw [lookup_eq_none_iff]
        intro x hx hc
        exact hu.1 (by rw [he, ← hc]; exact List.mem_map_of_mem _ hx)
      simp [fOAU, he, hp, fOAU_of_lookup_none _ _ hrest]
    · simp [lookup, he] at h
      simp [fOAU, he, ih hu.2 h]

theorem fOAUup_of_lookup_none {st : Ledger} {k : Key}
    (f : StockRec → StockRec) (ins : StockRec)
    (h : lookup st k = none) : fOAUup k f ins st = (ins, st ++ [(k, ins)]) := by
  simp [fOAUup, fOAU_of_lookup_none _ _ h]

theorem fOAUup_of_lookup_some {st : Ledger} {k : Key} {r : StockRec}
    (f : StockRec → StockRec) (ins : StockRec)
    (h : lookup st k = some r) : fOAUup k f ins st = (f r, replace k (f r) st) := by
  simp [fOAUup, fOAU_of_lookup_pos (fun _ => true) f h rfl]

/-! ### `lookup` / `replace` algebra -/

theorem lookup_replace_self {st : Ledger} {k : Key} {r r' : StockRec}
    (h : lookup st k = some r) : lookup (replace k r' st) k = some r' := by
  induction st with
  | nil => simp [lookup] at h
  | cons e rest ih =>
    by_cases he : e.1 = k
    · simp [replace, lookup, he]
    · simp [lookup, he] at h
      simp [replace, lookup, he, ih h]

theorem lookup_replace_ne {st : Ledger} {k k' : Key} {r' : StockRec}
    (h : k' ≠ k) : lookup (replace k r' st) k' = lookup st k' := by
  induction st with
  | nil => rfl
  | cons e rest ih =>
    by_cases he : e.1 = k <;> by_cases he' : e.1 = k' <;>
      simp [replace, lookup, he, he', h, Ne.symm h, ih]

theorem replace_keys (k : Key) (r' : StockRec) (st : Ledger) :
    (replace k r' st).map Prod.fst = st.map Prod.fst := by
  induction st with
  | nil => rfl
  | cons e rest ih =>
    by_cases he : e.1 = k <;> simp [replace, he, ih]

theorem replace_replace (k : Key) (r1 r2 : StockRec) (st : Ledger) :
    replace k r2 (replace k r1 st) = replace k r2 st := by
  induction st with
  | nil => rfl
  | cons e rest ih =>
    by_cases he : e.1 = k <;> simp [replace, he, ih]

theorem replace_lookup_self {st : Ledger} {k : Key} {r : StockRec}
    (h : lookup st k = some r) : replace k r st = st := by
  induction st with
  | nil => rfl
  | cons e rest ih =>
    by_cases he : e.1 = k
    · simp [lookup, he] at h
      subst h
      rcases e with ⟨ek, er⟩
      simp at he
      simp [replace, he]
    · simp [lookup, he] at h
      simp [replace, he, ih h]

theorem mem_replace {st : Ledger} {k : Key} {r' : StockRec} {e : Key × StockRec}
    (h : e ∈ replace k r' st) : e ∈ st ∨ e.2 = r' := by
  induction st with
  | nil => simp [replace] at h
  | cons e0 rest ih =>
    by_cases he : e0.1 = k
    · simp [replace, he] at h
      rcases h with h | h
      · right; rw [h]
      · left; exact List.mem_cons_of_mem _ h
    · simp [replace, he] at h
      rcases h with h | h
      · left; simp [h]
      · rcases ih h with h' | h'
        · left; exact List.mem_cons_of_mem _ h'
        · right; exact h'

theorem keysUnique_replace {st : Ledger} {k : Key} {r' : StockRec}
    (hu : KeysUnique st) : KeysUnique (replace k r' st) := by
  rw [KeysUnique, replace_keys]
  exact hu

theorem keysUnique_append {st : Ledger} {k : Key} {r' : StockRec}
    (hu : KeysUnique st) (h : lookup st k = none) :
    KeysUnique (st ++ [(k, r')]) := by
  rw [KeysUnique, List.map_append, List.nodup_append]
  refine ⟨hu, List.nodup_singleton _, ?_⟩
  intro a ha hb
  simp at hb
  rcases List.mem_map.mp ha with ⟨y, hy, hya⟩
  exact (lookup_eq_none_iff.mp h) y hy (by rw [hya, hb])

theorem lookup_append_none {st : Ledger} {k k' : Key} {r' : StockRec}
    (h : lookup st k' = none) :
    lookup (st ++ [(k, r')]) k' = if k = k' then some r' else none := by
  induction st with
  | nil => simp [lookup]
  | cons e rest ih =>
    by_cases he : e.1 = k' <;> simp [lookup, he] at h ⊢
    exact ih h

theorem lookup_append_some {st : Ledger} {k k' : Key} {r r' : StockRec}
    (h : lookup st k' = some r) :
    lookup (st ++ [(k, r')]) k' = some r := by
  induction st with
  | nil => simp [lookup] at h
  | cons e rest ih =>
    by_cases he : e.1 = k' <;> simp [lookup, he] at h ⊢
    · exact h
    · exact ih h

/-! ## Event stores

`ProcurementEvent` and `SaleEvent` documents carry many descriptive fields
(cost, source, buyer, contact, dates, …); only the fields that feed the
inventory logic — the (produceName, produceType, branch) key, the tonnage and
the selling price / amounts — are modelled.  Stores are keyed by a document id
(`ℕ` stands in for Mongo ObjectIds). -/

def lookupId {α : Type} : List (ℕ × α) → ℕ → Option α
  | [], _ => none
  | e :: rest, i => if e.1 = i then some e.2 else lookupId rest i

def removeId {α : Type} : List (ℕ × α) → ℕ → List (ℕ × α)
  | [], _ => []
  | e :: rest, i => if e.1 = i then rest else e :: removeId rest i

def replaceId {α : Type} : List (ℕ × α) → ℕ → α → List (ℕ × α)
  | [], _, _ => []
  | e :: rest, i, a => if e.1 = i then (e.1, a) :: rest else e :: replaceId rest i a

/-! ## Procurement controller (src/controllers/procurementController.js)

Request-shape validation, authentication and the manager-branch guard are the
excluded collaborator's concern: they refuse a request before any store access,
so they are modelled as hypotheses on the payload rather than as code.  The
fallible persistence steps (`Procurement.create`, `procurement.save`,
`Procurement.deleteOne`, and the migration's upsert) get boolean
failure-injection parameters. -/

structure ProcEvent where
  key : Key
  tonnage : ℚ
  sellingPrice : ℚ
deriving DecidableEq, Repr

inductive ProcErr where
  /-- "Procurement not found" (404). -/
  | eventNotFound
  /-- "Inventory not found for procurement update". -/
  | notFoundForUpdate
  /-- "Not enough stock to reduce procurement quantity". -/
  | notEnoughToReduce
  /-- "Cannot move procurement: insufficient stock on old inventory key". -/
  | cannotMove
  /-- "Cannot delete procurement due to insufficient stock". -/
  | cannotDeleteInsufficient
  /-- a store write threw (create/save/delete/upsert): 500 paths. -/
  | persistFailed
deriving DecidableEq, Repr

/-- `applyInventoryForProcurementMutation({oldData, newData})`: returns the
rollback closure on success; the returned ledger is the store state after the
call (unchanged on guard failure, compensated when the migration's second step
throws — `upsertFails` injects that throw). -/
def applyInventoryForProcurementMutation (oldData newData : ProcEvent)
    (upsertFails : Bool) (st : Ledger) :
    Except ProcErr (Ledger → Ledger) × Ledger :=
  let oldKey := oldData.key
  let newKey := newData.key
  let oldTonnage := oldData.tonnage
  let newTonnage := newData.tonnage
  if oldKey = newKey then
    let delta := newTonnage - oldTonnage
    if 0 ≤ delta then
      match fOAU oldKey (fun _ => true)
          (fun r => { stockKg := r.stockKg + delta,
                      sellingPrice := newData.sellingPrice }) st with
      | (none, st1) => (.error .notFoundForUpdate, st1)
      | (some _, st1) =>
        (.ok (fun st2 => (fOAU oldKey (fun _ => true)
          (fun r => { stockKg := r.stockKg - delta,
                      sellingPrice := oldData.sellingPrice }) st2).2), st1)
    else
      let required := |delta|
      match fOAU oldKey (fun r => required ≤ r.stockKg)
          (fun r => { stockKg := r.stockKg - required,
                      sellingPrice := newData.sellingPrice }) st with
      | (none, st1) => (.error .notEnoughToReduce, st1)
      | (some _, st1) =>
        (.ok (fun st2 => (fOAU oldKey (fun _ => true)
          (fun r => { stockKg := r.stockKg + required,
                      sellingPrice := oldData.sellingPrice }) st2).2), st1)
  else
    match fOAU oldKey (fun r => oldTonnage ≤ r.stockKg)
        (fun r => { r with stockKg := r.stockKg - oldTonnage }) st with
    | (none, st1) => (.error .cannotMove, st1)
    | (some _, st1) =>
      if upsertFails then
        (.error .persistFailed,
         (fOAU oldKey (fun _ => true)
           (fun r => { r with stockKg := r.stockKg + oldTonnage }) st1).2)
      else
        let (_, st2) := fOAUup newKey
          (fun r => { stockKg := r.stockKg + newTonnage,
                      sellingPrice := newData.sellingPrice })
          { stockKg := newTonnage, sellingPrice := newData.sellingPrice } st1
        (.ok (fun st3 =>
          let st4 := (fOAU newKey (fun _ => true)
            (fun r => { r with stockKg := r.stockKg - newTonnage }) st3).2
          (fOAU oldKey (fun _ => true)
            (fun r => { stockKg := r.stockKg + oldTonnage,
                        sellingPrice := oldData.sellingPrice }) st4).2), st2)

/-- `createProcurement` (lines 167-222): persists the ProcurementEvent first
(`Procurement.create`), then applies an unguarded upsert increment to the
ledger; the single `catch` maps either throw to a 500 with no compensation. -/
def createProcurement (st : Ledger) (procs : List (ℕ × ProcEvent)) (p : ProcEvent)
    (newId : ℕ) (createFails invFails : Bool) :
    Except ProcErr Unit × Ledger × List (ℕ × ProcEvent) :=
  if createFails then
    (.error .persistFailed, st, procs)
  else
    let procs1 := procs ++ [(newId, p)]
    if invFails then
      (.error .persistFailed, st, procs1)
    else
      let (_, st1) := fOAUup p.key
        (fun r => { stockKg := r.stockKg + p.tonnage, sellingPrice := p.sellingPrice })
        { stockKg := p.tonnage, sellingPrice := p.sellingPrice } st
      (.ok (), st1, procs1)

/-- Body of a procurement update request; `none` models an omitted field
(the controller falls back to the stored document's value). -/
structure ProcUpdateBody where
  produceName : Option String
  produceType : Option String
  branch : Option String
  tonnage : Option ℚ
  sellingPrice : Option ℚ
deriving Repr

/-- The `nextData` merge of `updateProcurementById`. -/
def mergeProcData (old : ProcEvent) (b : ProcUpdateBody) : ProcEvent :=
  { key := { produceName := b.produceName.getD old.key.produceName,
             produceType := b.produceType.getD old.key.produceType,
             branch := b.branch.getD old.key.branch },
    tonnage := b.tonnage.getD old.tonnage,
    sellingPrice := b.sellingPrice.getD old.sellingPrice }

/-- `updateProcurementById` (lines 224-288): merge `nextData`, run the
inventory mutation, then save the revised document; on save failure
(`saveFails`) run the rollback closure before surfacing the error. -/
def updateProcurementById (st : Ledger) (procs : List (ℕ × ProcEvent)) (i : ℕ)
    (b : ProcUpdateBody) (upsertFails saveFails : Bool) :
    Except ProcErr Unit × Ledger × List (ℕ × ProcEvent) :=
  match lookupId procs i with
  | none => (.error .eventNotFound, st, procs)
  | some old =>
    let next := mergeProcData old b
    match applyInventoryForProcurementMutation old next upsertFails st with
    | (.error e, st1) => (.error e, st1, procs)
    | (.ok rollback, st1) =>
      if saveFails then
        (.error .persistFailed, rollback st1, procs)
      else
        (.ok (), st1, replaceId procs i next)

/-- `deleteProcurementById` (lines 290-328): guarded retraction of the event's
tonnage, then delete the document; on delete failure (`deleteFails`) credit the
tonnage back before surfacing the error. -/
def deleteProcurementById (st : Ledger) (procs : List (ℕ × ProcEvent)) (i : ℕ)
    (deleteFails : Bool) :
    Except ProcErr Unit × Ledger × List (ℕ × ProcEvent) :=
  match lookupId procs i with
  | none => (.error .eventNotFound, st, procs)
  | some pr =>
    match fOAU pr.key (fun r => pr.tonnage ≤ r.stockKg)
        (fun r => { r with stockKg := r.stockKg - pr.tonnage }) st with
    | (none, st1) => (.error .cannotDeleteInsufficient, st1, procs)
    | (some _, st1) =>
      if deleteFails then
        (.error .persistFailed,
         (fOAU pr.key (fun _ => true)
           (fun r => { r with stockKg := r.stockKg + pr.tonnage }) st1).2, procs)
      else
        (.ok (), st1, removeId procs i)

/-! ## Sale controller (src/unnamed sale controller file)

Cash sales settle immediately (`amountPaid`), Credit sales defer
(`amountDue`); exactly one of the two is set per document, modelled as the
single field `amount`.  Counterparty fields never touch the ledger and are
omitted.  Manager notifications are modelled by their titles. -/

inductive SaleType where
  | Cash
  | Credit
deriving DecidableEq, Repr

structure SaleEvent where
  saleType : SaleType
  key : Key
  tonnage : ℚ
  unitPriceUsed : ℚ
  totalExpected : ℚ
  amount : ℚ
deriving DecidableEq, Repr

inductive SaleErr where
  /-- "Sale not found" (404). -/
  | eventNotFound
  /-- "Multiple produce types found. Provide produceType" (400). -/
  | ambiguousProduceType
  /-- "Product is out of stock for this branch" (400). -/
  | outOfStock
  /-- "Target inventory record not found for sale update" (400). -/
  | targetInventoryNotFound
  /-- "Computed amount is below the minimum allowed value of 10000" (400). -/
  | belowMinimum
  /-- "amountPaid/amountDue must match manager-set selling price" (400). -/
  | priceMismatch
  /-- "Insufficient stock for requested tonnage" /
      "Insufficient stock to increase sale tonnage" /
      "Insufficient stock on new inventory key" (400). -/
  | insufficientStock
  /-- "saleType cannot be changed" (400). -/
  | saleTypeChange
  /-- a store write threw (create/save/delete): 500 paths. -/
  | persistFailed
deriving DecidableEq, Repr

/-- `nearlyEqual(a, b)` — tolerance comparison on declared vs computed amounts. -/
def nearlyEqual (a b : ℚ) : Bool := |a - b| < 1/100

/-- `fetchInventoryForSale({produceName, produceType, branch})`: explicit
produce type → exact-key `findOne`; omitted type → `find` on (name, branch)
and resolve: one match resolves, several throw, zero yields `none`. -/
def fetchInventoryForSale (st : Ledger) (produceName : String)
    (produceType : Option String) (branch : String) :
    Except SaleErr (Option (Key × StockRec)) :=
  match produceType with
  | some t =>
    let k : Key := ⟨produceName, t, branch⟩
    match lookup st k with
    | some r => .ok (some (k, r))
    | none => .ok none
  | none =>
    match st.filter (fun e => e.1.produceName = produceName ∧ e.1.branch = branch) with
    | [m] => .ok (some m)
    | [] => .ok none
    | _ => .error .ambiguousProduceType

/-- Payload of a sale creation request (`amount` is `amountPaid` for Cash,
`amountDue` for Credit). -/
structure SalePayload where
  produceName : String
  produceType : Option String
  branch : String
  tonnage : ℚ
  amount : ℚ
deriving Repr

/-- `createSaleFromPayload({req, res, saleType})`: resolve the inventory
record, validate the minimum transaction value and the declared amount, apply
the guarded stock decrement, persist the SaleEvent (`persistFails` injects the
store throw, compensated by re-crediting), and emit the notifications.
Returns (result, ledger, sales, notification titles). -/
def createSaleFromPayload (st : Ledger) (sales : List (ℕ × SaleEvent))
    (saleType : SaleType) (p : SalePayload) (newId : ℕ) (persistFails : Bool) :
    Except SaleErr Unit × Ledger × List (ℕ × SaleEvent) × List String :=
  match fetchInventoryForSale st p.produceName p.produceType p.branch with
  | .error e => (.error e, st, sales, [])
  | .ok none => (.error .outOfStock, st, sales, ["Stock unavailable"])
  | .ok (some (k, inv)) =>
    let tonnage := p.tonnage
    let totalExpected := inv.sellingPrice * tonnage
    if totalExpected < 10000 then
      (.error .belowMinimum, st, sales, [])
    else if ¬ nearlyEqual p.amount totalExpected then
      (.error .priceMismatch, st, sales, [])
    else
      match fOAU k (fun r => tonnage ≤ r.stockKg)
          (fun r => { r with stockKg := r.stockKg - tonnage }) st with
      | (none, st1) => (.error .insufficientStock, st1, sales, ["Low stock block"])
      | (some reduced, st1) =>
        if persistFails then
          (.error .persistFailed,
           (fOAU k (fun _ => true)
             (fun r => { r with stockKg := r.stockKg + tonnage }) st1).2,
           sales, [])
        else
          let sale : SaleEvent :=
            { saleType := saleType, key := k, tonnage := tonnage,
              unitPriceUsed := inv.sellingPrice, totalExpected := totalExpected,
              amount := p.amount }
          (.ok (), st1, sales ++ [(newId, sale)],
           if reduced.stockKg = 0 then ["Out of stock"] else [])

/-- `applySaleInventoryMutation({oldData, newData})`: the sale-side delta
logic (signs inverted relative to procurement); returns the rollback closure
on success, and the post-call ledger (compensated when the different-key
decrement fails). -/
def applySaleInventoryMutation (oldKey newKey : Key) (oldTonnage newTonnage : ℚ)
    (st : Ledger) : Except SaleErr (Ledger → Ledger) × Ledger :=
  if oldKey = newKey then
    let delta := oldTonnage - newTonnage
    if 0 ≤ delta then
      let (_, st1) := fOAU oldKey (fun _ => true)
        (fun r => { r with stockKg := r.stockKg + delta }) st
      (.ok (fun st2 => (fOAU oldKey (fun _ => true)
        (fun r => { r with stockKg := r.stockKg - delta }) st2).2), st1)
    else
      let required := |delta|
      match fOAU oldKey (fun r => required ≤ r.stockKg)
          (fun r => { r with stockKg := r.stockKg - required }) st with
      | (none, st1) => (.error .insufficientStock, st1)
      | (some _, st1) =>
        (.ok (fun st2 => (fOAU oldKey (fun _ => true)
          (fun r => { r with stockKg := r.stockKg + required }) st2).2), st1)
  else
    let (_, st1) := fOAU oldKey (fun _ => true)
      (fun r => { r with stockKg := r.stockKg + oldTonnage }) st
    match fOAU newKey (fun r => newTonnage ≤ r.stockKg)
        (fun r => { r with stockKg := r.stockKg - newTonnage }) st1 with
    | (none, st2) =>
      (.error .insufficientStock,
       (fOAU oldKey (fun _ => true)
         (fun r => { r with stockKg := r.stockKg - oldTonnage }) st2).2)
    | (some _, st2) =>
      (.ok (fun st3 =>
        let st4 := (fOAU newKey (fun _ => true)
          (fun r => { r with stockKg := r.stockKg + newTonnage }) st3).2
        (fOAU oldKey (fun _ => true)
          (fun r => { r with stockKg := r.stockKg - oldTonnage }) st4).2), st2)

/-- Body of a sale update request (`none` = field omitted). -/
structure SaleUpdateBody where
  saleType : Option SaleType
  produceName : Option String
  produceType : Option String
  branch : Option String
  tonnage : Option ℚ
  amount : Option ℚ
deriving Repr

/-- The re-resolved (possibly changed) key of a sale update; the stored sale
always carries a produce type, so each omitted field falls back to it. -/
def mergeSaleKey (sale : SaleEvent) (b : SaleUpdateBody) : Key :=
  { produceName := b.produceName.getD sale.key.produceName,
    produceType := b.produceType.getD sale.key.produceType,
    branch := b.branch.getD sale.key.branch }

/-- `updateSaleById`: settlement variant immutable; re-resolve the key (an
exact-key lookup), re-validate amounts, apply the delta mutation, save
(rollback on `saveFails`). -/
def updateSaleById (st : Ledger) (sales : List (ℕ × SaleEvent)) (i : ℕ)
    (b : SaleUpdateBody) (saveFails : Bool) :
    Except SaleErr Unit × Ledger × List (ℕ × SaleEvent) :=
  match lookupId sales i with
  | none => (.error .eventNotFound, st, sales)
  | some sale =>
    if b.saleType.isSome ∧ b.saleType ≠ some sale.saleType then
      (.error .saleTypeChange, st, sales)
    else
      let nextKey : Key := mergeSaleKey sale b
      let nextTonnage := b.tonnage.getD sale.tonnage
      let nextAmount := b.amount.getD sale.amount
      match lookup st nextKey with
      | none => (.error .targetInventoryNotFound, st, sales)
      | some inv =>
        let totalExpected := inv.sellingPrice * nextTonnage
        if totalExpected < 10000 then
          (.error .belowMinimum, st, sales)
        else if ¬ nearlyEqual nextAmount totalExpected then
          (.error .priceMismatch, st, sales)
        else
          match applySaleInventoryMutation sale.key nextKey sale.tonnage nextTonnage st with
          | (.error e, st1) => (.error e, st1, sales)
          | (.ok rollback, st1) =>
            if saveFails then
              (.error .persistFailed, rollback st1, sales)
            else
              (.ok (), st1, replaceId sales i
                { sale with key := nextKey, tonnage := nextTonnage,
                            unitPriceUsed := inv.sellingPrice,
                            totalExpected := totalExpected, amount := nextAmount })

/-- `deleteSaleById`: credit the tonnage back with `{upsert: false}` (a
missing ledger record silently matches nothing), then delete the sale; on
delete failure (`deleteFails`) re-debit before surfacing the error. -/
def deleteSaleById (st : Ledger) (sales : List (ℕ × SaleEvent)) (i : ℕ)
    (deleteFails : Bool) :
    Except SaleErr Unit × Ledger × List (ℕ × SaleEvent) :=
  match lookupId sales i with
  | none => (.error .eventNotFound, st, sales)
  | some sale =>
    let (_, st1) := fOAU sale.key (fun _ => true)
      (fun r => { r with stockKg := r.stockKg + sale.tonnage }) st
    if deleteFails then
      (.error .persistFailed,
       (fOAU sale.key (fun _ => true)
         (fun r => { r with stockKg := r.stockKg - sale.tonnage }) st1).2, sales)
    else
      (.ok (), st1, removeId sales i)

/-! ## Staffing-floor guard (src/unnamed user controller file)

Roster entries carry role, branch and (for sales agents) a slot; credentials
and profile fields never feed the staffing check and are omitted.  The
manager-branch guard and request validation are the excluded collaborator's
refusals, modelled as hypotheses. -/

inductive Role where
  | Manager
  | SalesAgent
  | Director
deriving DecidableEq, Repr

structure UserRec where
  role : Role
  branch : String
  staffSlot : Option ℕ
deriving DecidableEq, Repr

abbrev Roster := List (ℕ × UserRec)

inductive UserErr where
  /-- "User not found" (404). -/
  | notFound
  /-- "Director account cannot be modified here / cannot be deleted" (403). -/
  | directorLocked
  /-- `StaffingFloorViolation`: "Cannot delete/move ..." (409). -/
  | staffingFloor
  /-- "staffSlot is required for SalesAgent" (400). -/
  | slotRequired
deriving DecidableEq, Repr

/-- `MIN_BRANCH_STAFF`: floor table; no entry for Director. -/
def MIN_BRANCH_STAFF : Role → Option ℕ
  | .Manager => some 1
  | .SalesAgent => some 2
  | .Director => none

/-- `User.countDocuments({branch, role})`. -/
def countStaff (roster : Roster) (branch : String) (role : Role) : ℕ :=
  (roster.filter (fun e => e.2.branch = branch ∧ e.2.role = role)).length

/-- `ensureMinimumBranchStaff({branch, role, …})`: `true` = action permitted.
Roles without a floor (Director) pass; otherwise refuse when `count ≤ minimum`. -/
def ensureMinimumBranchStaff (roster : Roster) (branch : String) (role : Role) : Bool :=
  match MIN_BRANCH_STAFF role with
  | none => true
  | some minimum => ¬ countStaff roster branch role ≤ minimum

/-- Body of a user update request (`none` = field omitted; credential fields
are irrelevant to the staffing logic and omitted). -/
structure UserUpdateBody where
  role : Option Role
  branch : Option String
  staffSlot : Option ℕ
deriving Repr

/-- `updateUserById` (staffing-relevant portion): Director targets are locked;
a role or branch change runs the staffing-floor check against the user's
current (branch, role); then the document is rewritten (SalesAgents must end
up with a slot). -/
def updateUserById (roster : Roster) (i : ℕ) (b : UserUpdateBody) :
    Except UserErr Unit × Roster :=
  match lookupId roster i with
  | none => (.error .notFound, roster)
  | some u =>
    if u.role = .Director then (.error .directorLocked, roster)
    else
      let nextRole := b.role.getD u.role
      let nextBranch := b.branch.getD u.branch
      if (nextRole ≠ u.role ∨ nextBranch ≠ u.branch) ∧
          ¬ ensureMinimumBranchStaff roster u.branch u.role then
        (.error .staffingFloor, roster)
      else
        let u1 : UserRec := { role := nextRole, branch := nextBranch, staffSlot := u.staffSlot }
        if nextRole = .SalesAgent then
          match b.staffSlot with
          | some s => (.ok (), replaceId roster i { u1 with staffSlot := some s })
          | none =>
            match u.staffSlot with
            | none => (.error .slotRequired, roster)
            | some _ => (.ok (), replaceId roster i u1)
        else
          (.ok (), replaceId roster i { u1 with staffSlot := none })

/-- `deleteUserById`: Director targets are locked; otherwise the
staffing-floor check guards the removal. -/
def deleteUserById (roster : Roster) (i : ℕ) :
    Except UserErr Unit × Roster :=
  match lookupId roster i with
  | none => (.error .notFound, roster)
  | some u =>
    if u.role = .Director then (.error .directorLocked, roster)
    else if ¬ ensureMinimumBranchStaff roster u.branch u.role then
      (.error .staffingFloor, roster)
    else
      (.ok (), removeId roster i)

/-! ## Ledger helper lemmas -/

/-- `quantityKg ≥ 0` for every document: the headline invariant. -/
def LedgerNonneg (st : Ledger) : Prop := ∀ e ∈ st, 0 ≤ e.2.stockKg

theorem ledgerNonneg_replace {st : Ledger} {k : Key} {r' : StockRec}
    (h : LedgerNonneg st) (hr : 0 ≤ r'.stockKg) : LedgerNonneg (replace k r' st) := by
  intro e he
  rcases mem_replace he with h2 | h2
  · exact h e h2
  · rw [h2]; exact hr

theorem ledgerNonneg_append {st : Ledger} {k : Key} {r' : StockRec}
    (h : LedgerNonneg st) (hr : 0 ≤ r'.stockKg) : LedgerNonneg (st ++ [(k, r')]) := by
  intro e he
  rcases List.mem_append.mp he with h2 | h2
  · exact h e h2
  · simp at h2
    rw [h2]; exact hr

theorem ledgerNonneg_lookup {st : Ledger} {k : Key} {r : StockRec}
    (h : LedgerNonneg st) (hl : lookup st k = some r) : 0 ≤ r.stockKg :=
  h (k, r) (lookup_some_mem hl)

/-! ## Characterisation of `applyInventoryForProcurementMutation` -/

theorem applyProcMut_sameKey_inc {old new : ProcEvent} {uf : Bool} {st : Ledger} {r : StockRec}
    (hk : old.key = new.key) (hd : 0 ≤ new.tonnage - old.tonnage)
    (hl : lookup st old.key = some r) :
    applyInventoryForProcurementMutation old new uf st =
      (.ok (fun st2 => (fOAU old.key (fun _ => true)
          (fun r => { stockKg := r.stockKg - (new.tonnage - old.tonnage),
                      sellingPrice := old.sellingPrice }) st2).2),
       replace old.key { stockKg := r.stockKg + (new.tonnage - old.tonnage),
                         sellingPrice := new.sellingPrice } st) := by
  simp only [applyInventoryForProcurementMutation]
  rw [if_pos hk, if_pos hd,
    fOAU_of_lookup_pos (fun _ => true)
      (fun r => { stockKg := r.stockKg + (new.tonnage - old.tonnage),
                  sellingPrice := new.sellingPrice }) hl rfl]

theorem applyProcMut_sameKey_inc_absent {old new : ProcEvent} {uf : Bool} {st : Ledger}
    (hk : old.key = new.key) (hd : 0 ≤ new.tonnage - old.tonnage)
    (hl : lookup st old.key = none) :
    applyInventoryForProcurementMutation old new uf st = (.error .notFoundForUpdate, st) := by
  simp only [applyInventoryForProcurementMutation]
  rw [if_pos hk, if_pos hd,
    fOAU_of_lookup_none (fun _ => true)
      (fun r => { stockKg := r.stockKg + (new.tonnage - old.tonnage),
                  sellingPrice := new.sellingPrice }) hl]

theorem applyProcMut_sameKey_dec {old new : ProcEvent} {uf : Bool} {st : Ledger} {r : StockRec}
    (hk : old.key = new.key) (hd : ¬ 0 ≤ new.tonnage - old.tonnage)
    (hl : lookup st old.key = some r)
    (hs : |new.tonnage - old.tonnage| ≤ r.stockKg) :
    applyInventoryForProcurementMutation old new uf st =
      (.ok (fun st2 => (fOAU old.key (fun _ => true)
          (fun r => { stockKg := r.stockKg + |new.tonnage - old.tonnage|,
                      sellingPrice := old.sellingPrice }) st2).2),
       replace old.key { stockKg := r.stockKg - |new.tonnage - old.tonnage|,
                         sellingPrice := new.sellingPrice } st) := by
  simp only [applyInventoryForProcurementMutation]
  rw [if_pos hk, if_neg hd,
    fOAU_of_lookup_pos (fun r => |new.tonnage - old.tonnage| ≤ r.stockKg)
      (fun r => { stockKg := r.stockKg - |new.tonnage - old.tonnage|,
                  sellingPrice := new.sellingPrice }) hl (by simp [hs])]

theorem applyProcMut_sameKey_dec_insufficient {old new : ProcEvent} {uf : Bool}
    {st : Ledger} {r : StockRec}
    (hu : KeysUnique st)
    (hk : old.key = new.key) (hd : ¬ 0 ≤ new.tonnage - old.tonnage)
    (hl : lookup st old.key = some r)
    (hs : ¬ |new.tonnage - old.tonnage| ≤ r.stockKg) :
    applyInventoryForProcurementMutation old new uf st = (.error .notEnoughToReduce, st) := by
  simp only [applyInventoryForProcurementMutation]
  rw [if_pos hk, if_neg hd,
    fOAU_of_guard_fail (fun r => |new.tonnage - old.tonnage| ≤ r.stockKg)
      (fun r => { stockKg := r.stockKg - |new.tonnage - old.tonnage|,
                  sellingPrice := new.sellingPrice }) hu hl (by simp [hs])]

theorem applyProcMut_sameKey_dec_absent {old new : ProcEvent} {uf : Bool} {st : Ledger}
    (hk : old.key = new.key) (hd : ¬ 0 ≤ new.tonnage - old.tonnage)
    (hl : lookup st old.key = none) :
    applyInventoryForProcurementMutation old new uf st = (.error .notEnoughToReduce, st) := by
  simp only [applyInventoryForProcurementMutation]
  rw [if_pos hk, if_neg hd,
    fOAU_of_lookup_none (fun r => |new.tonnage - old.tonnage| ≤ r.stockKg)
      (fun r => { stockKg := r.stockKg - |new.tonnage - old.tonnage|,
                  sellingPrice := new.sellingPrice }) hl]

theorem applyProcMut_move_absent {old new : ProcEvent} {uf : Bool} {st : Ledger}
    (hk : ¬ old.key = new.key) (hl : lookup st old.key = none) :
    applyInventoryForProcurementMutation old new uf st = (.error .cannotMove, st) := by
  simp only [applyInventoryForProcurementMutation]
  rw [if_neg hk,
    fOAU_of_lookup_none (fun r => old.tonnage ≤ r.stockKg)
      (fun r => { r with stockKg := r.stockKg - old.tonnage }) hl]

theorem applyProcMut_move_insufficient {old new : ProcEvent} {uf : Bool}
    {st : Ledger} {r : StockRec}
    (hu : KeysUnique st)
    (hk : ¬ old.key = new.key) (hl : lookup st old.key = some r)
    (hs : ¬ old.tonnage ≤ r.stockKg) :
    applyInventoryForProcurementMutation old new uf st = (.error .cannotMove, st) := by
  simp only [applyInventoryForProcurementMutation]
  rw [if_neg hk,
    fOAU_of_guard_fail (fun r => old.tonnage ≤ r.stockKg)
      (fun r => { r with stockKg := r.stockKg - old.tonnage }) hu hl (by simp [hs])]

theorem applyProcMut_move_upsertFails {old new : ProcEvent} {st : Ledger} {r : StockRec}
    (hk : ¬ old.key = new.key) (hl : lookup st old.key = some r)
    (hs : old.tonnage ≤ r.stockKg) :
    applyInventoryForProcurementMutation old new true st = (.error .persistFailed, st) := by
  simp only [applyInventoryForProcurementMutation]
  rw [if_neg hk,
    fOAU_of_lookup_pos (fun r => old.tonnage ≤ r.stockKg)
      (fun r => { r with stockKg := r.stockKg - old.tonnage }) hl (by simp [hs])]
  have hl1 : lookup (replace old.key { r with stockKg := r.stockKg - old.tonnage } st)
      old.key = some { r with stockKg := r.stockKg - old.tonnage } :=
    lookup_replace_self hl
  dsimp only
  rw [fOAU_of_lookup_pos (fun _ => true)
    (fun r => { r with stockKg := r.stockKg + old.tonnage }) hl1 rfl]
  simp only [replace_replace, sub_add_cancel]
  rw [replace_lookup_self hl]
  simp

theorem applyProcMut_move_ok {old new : ProcEvent} {st : Ledger} {r : StockRec}
    (hk : ¬ old.key = new.key) (hl : lookup st old.key = some r)
    (hs : old.tonnage ≤ r.stockKg) :
    applyInventoryForProcurementMutation old new false st =
      (.ok (fun st3 =>
          let st4 := (fOAU new.key (fun _ => true)
            (fun r => { r with stockKg := r.stockKg - new.tonnage }) st3).2
          (fOAU old.key (fun _ => true)
            (fun r => { stockKg := r.stockKg + old.tonnage,
                        sellingPrice := old.sellingPrice }) st4).2),
       (fOAUup new.key
          (fun r => { stockKg := r.stockKg + new.tonnage,
                      sellingPrice := new.sellingPrice })
          { stockKg := new.tonnage, sellingPrice := new.sellingPrice }
          (replace old.key { r with stockKg := r.stockKg - old.tonnage } st)).2) := by
  simp only [applyInventoryForProcurementMutation]
  rw [if_neg hk,
    fOAU_of_lookup_pos (fun r => old.tonnage ≤ r.stockKg)
      (fun r => { r with stockKg := r.stockKg - old.tonnage }) hl (by simp [hs])]
  simp

/-! ## Characterisation of `applySaleInventoryMutation` -/

theorem applySaleMut_sameKey_dec {k : Key} {oldT newT : ℚ} {st : Ledger} {r : StockRec}
    (hd : 0 ≤ oldT - newT) (hl : lookup st k = some r) :
    applySaleInventoryMutation k k oldT newT st =
      (.ok (fun st2 => (fOAU k (fun _ => true)
          (fun r => { r with stockKg := r.stockKg - (oldT - newT) }) st2).2),
       replace k { r with stockKg := r.stockKg + (oldT - newT) } st) := by
  simp only [applySaleInventoryMutation]
  rw [if_pos trivial, if_pos hd,
    fOAU_of_lookup_pos (fun _ => true)
      (fun r => { r with stockKg := r.stockKg + (oldT - newT) }) hl rfl]

theorem applySaleMut_sameKey_dec_absent {k : Key} {oldT newT : ℚ} {st : Ledger}
    (hd : 0 ≤ oldT - newT) (hl : lookup st k = none) :
    applySaleInventoryMutation k k oldT newT st =
      (.ok (fun st2 => (fOAU k (fun _ => true)
          (fun r => { r with stockKg := r.stockKg - (oldT - newT) }) st2).2), st) := by
  simp only [applySaleInventoryMutation]
  rw [if_pos trivial, if_pos hd,
    fOAU_of_lookup_none (fun _ => true)
      (fun r => { r with stockKg := r.stockKg + (oldT - newT) }) hl]

theorem applySaleMut_sameKey_inc {k : Key} {oldT newT : ℚ} {st : Ledger} {r : StockRec}
    (hd : ¬ 0 ≤ oldT - newT) (hl : lookup st k = some r)
    (hs : |oldT - newT| ≤ r.stockKg) :
    applySaleInventoryMutation k k oldT newT st =
      (.ok (fun st2 => (fOAU k (fun _ => true)
          (fun r => { r with stockKg := r.stockKg + |oldT - newT| }) st2).2),
       replace k { r with stockKg := r.stockKg - |oldT - newT| } st) := by
  simp only [applySaleInventoryMutation]
  rw [if_pos trivial, if_neg hd,
    fOAU_of_lookup_pos (fun r => |oldT - newT| ≤ r.stockKg)
      (fun r => { r with stockKg := r.stockKg - |oldT - newT| }) hl (by simp [hs])]

theorem applySaleMut_sameKey_inc_insufficient {k : Key} {oldT newT : ℚ}
    {st : Ledger} {r : StockRec}
    (hu : KeysUnique st) (hd : ¬ 0 ≤ oldT - newT) (hl : lookup st k = some r)
    (hs : ¬ |oldT - newT| ≤ r.stockKg) :
    applySaleInventoryMutation k k oldT newT st = (.error .insufficientStock, st) := by
  simp only [applySaleInventoryMutation]
  rw [if_pos trivial, if_neg hd,
    fOAU_of_guard_fail (fun r => |oldT - newT| ≤ r.stockKg)
      (fun r => { r with stockKg := r.stockKg - |oldT - newT| }) hu hl (by simp [hs])]

theorem applySaleMut_sameKey_inc_absent {k : Key} {oldT newT : ℚ} {st : Ledger}
    (hd : ¬ 0 ≤ oldT - newT) (hl : lookup st k = none) :
    applySaleInventoryMutation k k oldT newT st = (.error .insufficientStock, st) := by
  simp only [applySaleInventoryMutation]
  rw [if_pos trivial, if_neg hd,
    fOAU_of_lookup_none (fun r => |oldT - newT| ≤ r.stockKg)
      (fun r => { r with stockKg := r.stockKg - |oldT - newT| }) hl]

theorem stockRec_eta (r : StockRec) :
    ({ stockKg := r.stockKg, sellingPrice := r.sellingPrice } : StockRec) = r := rfl

theorem replace_append_of_lookup_none {st : Ledger} {k : Key} {ins r' : StockRec}
    (h : lookup st k = none) :
    replace k r' (st ++ [(k, ins)]) = st ++ [(k, r')] := by
  induction st with
  | nil => simp [replace]
  | cons e rest ih =>
    by_cases he : e.1 = k
    · simp [lookup, he] at h
    · simp [lookup, he] at h
      simp [replace, he, ih h]

/-- The crediting step of the different-key sale revision, applied to the state
it has to undo, restores that state exactly. -/
theorem applySaleMut_move_absent {oldKey newKey : Key} {oldT newT : ℚ} {st : Ledger}
    (hk : ¬ oldKey = newKey) (hl2 : lookup st newKey = none) :
    applySaleInventoryMutation oldKey newKey oldT newT st =
      (.error .insufficientStock, st) := by
  simp only [applySaleInventoryMutation]
  rw [if_neg hk]
  cases hl1 : lookup st oldKey with
  | none =>
    rw [fOAU_of_lookup_none (fun _ => true)
      (fun r => { r with stockKg := r.stockKg + oldT }) hl1]
    dsimp only
    rw [fOAU_of_lookup_none (fun r => newT ≤ r.stockKg)
      (fun r => { r with stockKg := r.stockKg - newT }) hl2]
    dsimp only
    rw [fOAU_of_lookup_none (fun _ => true)
      (fun r => { r with stockKg := r.stockKg - oldT }) hl1]
  | some r1 =>
    rw [fOAU_of_lookup_pos (fun _ => true)
      (fun r => { r with stockKg := r.stockKg + oldT }) hl1 rfl]
    dsimp only
    have hl2' : lookup (replace oldKey { r1 with stockKg := r1.stockKg + oldT } st)
        newKey = none := by
      rw [lookup_replace_ne (fun hc => hk hc.symm)]
      exact hl2
    rw [fOAU_of_lookup_none (fun r => newT ≤ r.stockKg)
      (fun r => { r with stockKg := r.stockKg - newT }) hl2']
    dsimp only
    rw [fOAU_of_lookup_pos (fun _ => true)
      (fun r => { r with stockKg := r.stockKg - oldT })
      (lookup_replace_self hl1) rfl]
    dsimp only
    rw [replace_replace]
    simp only [add_sub_cancel_right, stockRec_eta]
    rw [replace_lookup_self hl1]

/-- Different-key sale revision with an insufficient (but present) target
record: refused, state restored exactly. -/
theorem applySaleMut_move_insufficient {oldKey newKey : Key} {oldT newT : ℚ}
    {st : Ledger} {r2 : StockRec}
    (hu : KeysUnique st) (hk : ¬ oldKey = newKey)
    (hl2 : lookup st newKey = some r2) (hs : ¬ newT ≤ r2.stockKg) :
    applySaleInventoryMutation oldKey newKey oldT newT st =
      (.error .insufficientStock, st) := by
  simp only [applySaleInventoryMutation]
  rw [if_neg hk]
  cases hl1 : lookup st oldKey with
  | none =>
    rw [fOAU_of_lookup_none (fun _ => true)
      (fun r => { r with stockKg := r.stockKg + oldT }) hl1]
    dsimp only
    rw [fOAU_of_guard_fail (fun r => newT ≤ r.stockKg)
      (fun r => { r with stockKg := r.stockKg - newT }) hu hl2 (by simp [hs])]
    dsimp only
    rw [fOAU_of_lookup_none (fun _ => true)
      (fun r => { r with stockKg := r.stockKg - oldT }) hl1]
  | some r1 =>
    rw [fOAU_of_lookup_pos (fun _ => true)
      (fun r => { r with stockKg := r.stockKg + oldT }) hl1 rfl]
    dsimp only
    have hl2' : lookup (replace oldKey { r1 with stockKg := r1.stockKg + oldT } st)
        newKey = some r2 := by
      rw [lookup_replace_ne (fun hc => hk hc.symm)]
      exact hl2
    rw [fOAU_of_guard_fail (fun r => newT ≤ r.stockKg)
      (fun r => { r with stockKg := r.stockKg - newT })
      (keysUnique_replace hu) hl2' (by simp [hs])]
    dsimp only
    rw [fOAU_of_lookup_pos (fun _ => true)
      (fun r => { r with stockKg := r.stockKg - oldT })
      (lookup_replace_self hl1) rfl]
    dsimp only
    rw [replace_replace]
    simp only [add_sub_cancel_right, stockRec_eta]
    rw [replace_lookup_self hl1]

/-- Different-key sale revision, successful path: the old key is credited, the
new key is debited under the sufficiency guard. -/
theorem applySaleMut_move_ok {oldKey newKey : Key} {oldT newT : ℚ}
    {st : Ledger} {r2 : StockRec}
    (hk : ¬ oldKey = newKey)
    (hl2 : lookup st newKey = some r2) (hs : newT ≤ r2.stockKg) :
    applySaleInventoryMutation oldKey newKey oldT newT st =
      (.ok (fun st3 =>
        (fOAU oldKey (fun _ => true)
          (fun r => { r with stockKg := r.stockKg - oldT })
          ((fOAU newKey (fun _ => true)
            (fun r => { r with stockKg := r.stockKg + newT }) st3).2)).2),
       replace newKey { r2 with stockKg := r2.stockKg - newT }
         ((fOAU oldKey (fun _ => true)
           (fun r => { r with stockKg := r.stockKg + oldT }) st).2)) := by
  simp only [applySaleInventoryMutation]
  rw [if_neg hk]
  cases hl1 : lookup st oldKey with
  | none =>
    rw [fOAU_of_lookup_none (fun _ => true)
      (fun r => { r with stockKg := r.stockKg + oldT }) hl1]
    dsimp only
    rw [fOAU_of_lookup_pos (fun r => newT ≤ r.stockKg)
      (fun r => { r with stockKg := r.stockKg - newT }) hl2 (by simp [hs])]
  | some r1 =>
    rw [fOAU_of_lookup_pos (fun _ => true)
      (fun r => { r with stockKg := r.stockKg + oldT }) hl1 rfl]
    dsimp only
    have hl2' : lookup (replace oldKey { r1 with stockKg := r1.stockKg + oldT } st)
        newKey = some r2 := by
      rw [lookup_replace_ne (fun hc => hk hc.symm)]
      exact hl2
    rw [fOAU_of_lookup_pos (fun r => newT ≤ r.stockKg)
      (fun r => { r with stockKg := r.stockKg - newT }) hl2' (by simp [hs])]

/-- A successful sale-side mutation's rollback closure, applied to the mutated
state, restores the initial ledger exactly (sale mutations never touch the
price, so the inverse increments are a perfect undo). -/
theorem applySaleMut_rollback_exact {oldKey newKey : Key} {oldT newT : ℚ}
    {st st' : Ledger} {rb : Ledger → Ledger}
    (hu : KeysUnique st)
    (h : applySaleInventoryMutation oldKey newKey oldT newT st = (.ok rb, st')) :
    rb st' = st := by
  by_cases hk : oldKey = newKey
  · subst hk
    by_cases hd : 0 ≤ oldT - newT
    · cases hl : lookup st oldKey with
      | none =>
        rw [applySaleMut_sameKey_dec_absent hd hl] at h
        simp only [Prod.mk.injEq, Except.ok.injEq] at h
        rw [← h.1, ← h.2]
        dsimp only
        rw [fOAU_of_lookup_none (fun _ => true)
          (fun r => { r with stockKg := r.stockKg - (oldT - newT) }) hl]
      | some r =>
        rw [applySaleMut_sameKey_dec hd hl] at h
        simp only [Prod.mk.injEq, Except.ok.injEq] at h
        rw [← h.1, ← h.2]
        dsimp only
        rw [fOAU_of_lookup_pos (fun _ => true)
          (fun r => { r with stockKg := r.stockKg - (oldT - newT) })
          (lookup_replace_self hl) rfl]
        dsimp only
        rw [replace_replace]
        simp only [add_sub_cancel_right, stockRec_eta]
        exact replace_lookup_self hl
    · cases hl : lookup st oldKey with
      | none =>
        rw [applySaleMut_sameKey_inc_absent hd hl] at h
        simp at h
      | some r =>
        by_cases hs : |oldT - newT| ≤ r.stockKg
        · rw [applySaleMut_sameKey_inc hd hl hs] at h
          simp only [Prod.mk.injEq, Except.ok.injEq] at h
          rw [← h.1, ← h.2]
          dsimp only
          rw [fOAU_of_lookup_pos (fun _ => true)
            (fun r => { r with stockKg := r.stockKg + |oldT - newT| })
            (lookup_replace_self hl) rfl]
          dsimp only
          rw [replace_replace]
          simp only [sub_add_cancel, stockRec_eta]
          exact replace_lookup_self hl
        · rw [applySaleMut_sameKey_inc_insufficient hu hd hl hs] at h
          simp at h
  · cases hl2 : lookup st newKey with
    | none =>
      rw [applySaleMut_move_absent hk hl2] at h
      simp at h
    | some r2 =>
      by_cases hs : newT ≤ r2.stockKg
      · rw [applySaleMut_move_ok hk hl2 hs] at h
        simp only [Prod.mk.injEq, Except.ok.injEq] at h
        rw [← h.1, ← h.2]
        dsimp only
        cases hl1 : lookup st oldKey with
        | none =>
          rw [fOAU_of_lookup_none (fun _ => true)
            (fun r => { r with stockKg := r.stockKg + oldT }) hl1]
          dsimp only
          rw [fOAU_of_lookup_pos (fun _ => true)
            (fun r => { r with stockKg := r.stockKg + newT })
            (lookup_replace_self hl2) rfl]
          dsimp only
          rw [replace_replace]
          simp only [sub_add_cancel, stockRec_eta]
          rw [replace_lookup_self hl2]
          rw [fOAU_of_lookup_none (fun _ => true)
            (fun r => { r with stockKg := r.stockKg - oldT }) hl1]
        | some r1 =>
          rw [fOAU_of_lookup_pos (fun _ => true)
            (fun r => { r with stockKg := r.stockKg + oldT }) hl1 rfl]
          dsimp only
          have hl2' : lookup (replace oldKey { r1 with stockKg := r1.stockKg + oldT } st)
              newKey = some r2 := by
            rw [lookup_replace_ne (fun hc => hk hc.symm)]
            exact hl2
          rw [fOAU_of_lookup_pos (fun _ => true)
            (fun r => { r with stockKg := r.stockKg + newT })
            (lookup_replace_self hl2') rfl]
          dsimp only
          rw [replace_replace]
          simp only [sub_add_cancel, stockRec_eta]
          rw [replace_lookup_self hl2']
          rw [fOAU_of_lookup_pos (fun _ => true)
            (fun r => { r with stockKg := r.stockKg - oldT })
            (lookup_replace_self hl1) rfl]
          dsimp only
          rw [replace_replace]
          simp only [add_sub_cancel_right, stockRec_eta]
          exact replace_lookup_self hl1
      · rw [applySaleMut_move_insufficient hu hk hl2 hs] at h
        simp at h

/-- The sale-side mutation keeps the unique index and the non-negativity of
every document (the only unguarded increment credits the old sale's tonnage,
which is non-negative for every stored sale). -/
theorem applySaleMut_preserves {oldKey newKey : Key} {oldT newT : ℚ}
    {st st' : Ledger} {res : Except SaleErr (Ledger → Ledger)}
    (hu : KeysUnique st) (hn : LedgerNonneg st) (hOldT : 0 ≤ oldT)
    (h : applySaleInventoryMutation oldKey newKey oldT newT st = (res, st')) :
    KeysUnique st' ∧ LedgerNonneg st' := by
  by_cases hk : oldKey = newKey
  · subst hk
    by_cases hd : 0 ≤ oldT - newT
    · cases hl : lookup st oldKey with
      | none =>
        rw [applySaleMut_sameKey_dec_absent hd hl] at h
        simp only [Prod.mk.injEq] at h
        rw [← h.2]
        exact ⟨hu, hn⟩
      | some r =>
        rw [applySaleMut_sameKey_dec hd hl] at h
        simp only [Prod.mk.injEq] at h
        rw [← h.2]
        exact ⟨keysUnique_replace hu,
          ledgerNonneg_replace hn (add_nonneg (ledgerNonneg_lookup hn hl) hd)⟩
    · cases hl : lookup st oldKey with
      | none =>
        rw [applySaleMut_sameKey_inc_absent hd hl] at h
        simp only [Prod.mk.injEq] at h
        rw [← h.2]
        exact ⟨hu, hn⟩
      | some r =>
        by_cases hs : |oldT - newT| ≤ r.stockKg
        · rw [applySaleMut_sameKey_inc hd hl hs] at h
          simp only [Prod.mk.injEq] at h
          rw [← h.2]
          exact ⟨keysUnique_replace hu,
            ledgerNonneg_replace hn (sub_nonneg.mpr hs)⟩
        · rw [applySaleMut_sameKey_inc_insufficient hu hd hl hs] at h
          simp only [Prod.mk.injEq] at h
          rw [← h.2]
          exact ⟨hu, hn⟩
  · cases hl2 : lookup st newKey with
    | none =>
      rw [applySaleMut_move_absent hk hl2] at h
      simp only [Prod.mk.injEq] at h
      rw [← h.2]
      exact ⟨hu, hn⟩
    | some r2 =>
      by_cases hs : newT ≤ r2.stockKg
      · rw [applySaleMut_move_ok hk hl2 hs] at h
        simp only [Prod.mk.injEq] at h
        rw [← h.2]
        cases hl1 : lookup st oldKey with
        | none =>
          rw [fOAU_of_lookup_none (fun _ => true)
            (fun r => { r with stockKg := r.stockKg + oldT }) hl1]
          exact ⟨keysUnique_replace hu,
            ledgerNonneg_replace hn (sub_nonneg.mpr hs)⟩
        | some r1 =>
          rw [fOAU_of_lookup_pos (fun _ => true)
            (fun r => { r with stockKg := r.stockKg + oldT }) hl1 rfl]
          dsimp only
          refine ⟨keysUnique_replace (keysUnique_replace hu), ?_⟩
          refine ledgerNonneg_replace
            (ledgerNonneg_replace hn
              (add_nonneg (ledgerNonneg_lookup hn hl1) hOldT)) ?_
          exact sub_nonneg.mpr hs
      · rw [applySaleMut_move_insufficient hu hk hl2 hs] at h
        simp only [Prod.mk.injEq] at h
        rw [← h.2]
        exact ⟨hu, hn⟩

theorem lookup_append_self {st : Ledger} {k : Key} {ins : StockRec}
    (h : lookup st k = none) : lookup (st ++ [(k, ins)]) k = some ins := by
  rw [lookup_append_none h]
  simp

/-- The procurement-side mutation keeps the unique index and non-negativity
(the upsert inserts the revised tonnage, which is non-negative for every
validated payload). -/
theorem applyProcMut_preserves {old new : ProcEvent} {uf : Bool} {st st' : Ledger}
    {res : Except ProcErr (Ledger → Ledger)}
    (hu : KeysUnique st) (hn : LedgerNonneg st) (hNewT : 0 ≤ new.tonnage)
    (h : applyInventoryForProcurementMutation old new uf st = (res, st')) :
    KeysUnique st' ∧ LedgerNonneg st' := by
  by_cases hk : old.key = new.key
  · by_cases hd : 0 ≤ new.tonnage - old.tonnage
    · cases hl : lookup st old.key with
      | none =>
        rw [applyProcMut_sameKey_inc_absent hk hd hl] at h
        simp only [Prod.mk.injEq] at h
        rw [← h.2]
        exact ⟨hu, hn⟩
      | some r =>
        rw [applyProcMut_sameKey_inc hk hd hl] at h
        simp only [Prod.mk.injEq] at h
        rw [← h.2]
        exact ⟨keysUnique_replace hu,
          ledgerNonneg_replace hn (add_nonneg (ledgerNonneg_lookup hn hl) hd)⟩
    · cases hl : lookup st old.key with
      | none =>
        rw [applyProcMut_sameKey_dec_absent hk hd hl] at h
        simp only [Prod.mk.injEq] at h
        rw [← h.2]
        exact ⟨hu, hn⟩
      | some r =>
        by_cases hs : |new.tonnage - old.tonnage| ≤ r.stockKg
        · rw [applyProcMut_sameKey_dec hk hd hl hs] at h
          simp only [Prod.mk.injEq] at h
          rw [← h.2]
          exact ⟨keysUnique_replace hu, ledgerNonneg_replace hn (sub_nonneg.mpr hs)⟩
        · rw [applyProcMut_sameKey_dec_insufficient hu hk hd hl hs] at h
          simp only [Prod.mk.injEq] at h
          rw [← h.2]
          exact ⟨hu, hn⟩
  · cases hl : lookup st old.key with
    | none =>
      rw [applyProcMut_move_absent hk hl] at h
      simp only [Prod.mk.injEq] at h
      rw [← h.2]
      exact ⟨hu, hn⟩
    | some r1 =>
      by_cases hs : old.tonnage ≤ r1.stockKg
      · cases uf with
        | true =>
          rw [applyProcMut_move_upsertFails hk hl hs] at h
          simp only [Prod.mk.injEq] at h
          rw [← h.2]
          exact ⟨hu, hn⟩
        | false =>
          rw [applyProcMut_move_ok hk hl hs] at h
          simp only [Prod.mk.injEq] at h
          rw [← h.2]
          have hu1 : KeysUnique (replace old.key
              { r1 with stockKg := r1.stockKg - old.tonnage } st) := keysUnique_replace hu
          have hn1 : LedgerNonneg (replace old.key
              { r1 with stockKg := r1.stockKg - old.tonnage } st) :=
            ledgerNonneg_replace hn (sub_nonneg.mpr hs)
          have hlnew : lookup (replace old.key
              { r1 with stockKg := r1.stockKg - old.tonnage } st) new.key =
              lookup st new.key := lookup_replace_ne (fun hc => hk hc.symm)
          cases hl2 : lookup st new.key with
          | none =>
            rw [fOAUup_of_lookup_none _ _ (hlnew.trans hl2)]
            exact ⟨keysUnique_append hu1 (hlnew.trans hl2),
              ledgerNonneg_append hn1 hNewT⟩
          | some r2 =>
            rw [fOAUup_of_lookup_some _ _ (hlnew.trans hl2)]
            refine ⟨keysUnique_replace hu1, ledgerNonneg_replace hn1 ?_⟩
            have h2 : 0 ≤ r2.stockKg := ledgerNonneg_lookup hn hl2
            exact add_nonneg h2 hNewT
      · cases uf with
        | true =>
          rw [applyProcMut_move_insufficient hu hk hl hs] at h
          simp only [Prod.mk.injEq] at h
          rw [← h.2]
          exact ⟨hu, hn⟩
        | false =>
          rw [applyProcMut_move_insufficient hu hk hl hs] at h
          simp only [Prod.mk.injEq] at h
          rw [← h.2]
          exact ⟨hu, hn⟩

/-- Running a successful procurement-side mutation's rollback closure right
after it keeps the unique index and non-negativity: quantities return to their
prior (non-negative) values; only the price may be left at the old event's
value. -/
theorem applyProcMut_rollback_preserves {old new : ProcEvent} {uf : Bool}
    {st st' : Ledger} {rb : Ledger → Ledger}
    (hu : KeysUnique st) (hn : LedgerNonneg st)
    (h : applyInventoryForProcurementMutation old new uf st = (.ok rb, st')) :
    KeysUnique (rb st') ∧ LedgerNonneg (rb st') := by
  by_cases hk : old.key = new.key
  · by_cases hd : 0 ≤ new.tonnage - old.tonnage
    · cases hl : lookup st old.key with
      | none =>
        rw [applyProcMut_sameKey_inc_absent hk hd hl] at h
        simp at h
      | some r =>
        rw [applyProcMut_sameKey_inc hk hd hl] at h
        simp only [Prod.mk.injEq, Except.ok.injEq] at h
        rw [← h.1, ← h.2]
        dsimp only
        rw [fOAU_of_lookup_pos (fun _ => true)
          (fun r => { stockKg := r.stockKg - (new.tonnage - old.tonnage),
                      sellingPrice := old.sellingPrice })
          (lookup_replace_self hl) rfl]
        dsimp only
        rw [replace_replace]
        simp only [add_sub_cancel_right]
        have hq : (0:ℚ) ≤ r.stockKg := ledgerNonneg_lookup hn hl
        exact ⟨keysUnique_replace hu, ledgerNonneg_replace hn hq⟩
    · cases hl : lookup st old.key with
      | none =>
        rw [applyProcMut_sameKey_dec_absent hk hd hl] at h
        simp at h
      | some r =>
        by_cases hs : |new.tonnage - old.tonnage| ≤ r.stockKg
        · rw [applyProcMut_sameKey_dec hk hd hl hs] at h
          simp only [Prod.mk.injEq, Except.ok.injEq] at h
          rw [← h.1, ← h.2]
          dsimp only
          rw [fOAU_of_lookup_pos (fun _ => true)
            (fun r => { stockKg := r.stockKg + |new.tonnage - old.tonnage|,
                        sellingPrice := old.sellingPrice })
            (lookup_replace_self hl) rfl]
          dsimp only
          rw [replace_replace]
          simp only [sub_add_cancel]
          have hq : (0:ℚ) ≤ r.stockKg := ledgerNonneg_lookup hn hl
          exact ⟨keysUnique_replace hu, ledgerNonneg_replace hn hq⟩
        · rw [applyProcMut_sameKey_dec_insufficient hu hk hd hl hs] at h
          simp at h
  · cases hl : lookup st old.key with
    | none =>
      rw [applyProcMut_move_absent hk hl] at h
      simp at h
    | some r1 =>
      by_cases hs : old.tonnage ≤ r1.stockKg
      · cases uf with
        | true =>
          rw [applyProcMut_move_upsertFails hk hl hs] at h
          simp at h
        | false =>
          rw [applyProcMut_move_ok hk hl hs] at h
          simp only [Prod.mk.injEq, Except.ok.injEq] at h
          rw [← h.1, ← h.2]
          dsimp only
          have hu1 : KeysUnique (replace old.key
              { r1 with stockKg := r1.stockKg - old.tonnage } st) := keysUnique_replace hu
          have hn1 : LedgerNonneg (replace old.key
              { r1 with stockKg := r1.stockKg - old.tonnage } st) :=
            ledgerNonneg_replace hn (sub_nonneg.mpr hs)
          have hlold1 : lookup (replace old.key
              { r1 with stockKg := r1.stockKg - old.tonnage } st) old.key =
              some { r1 with stockKg := r1.stockKg - old.tonnage } :=
            lookup_replace_self hl
          have hlnew : lookup (replace old.key
              { r1 with stockKg := r1.stockKg - old.tonnage } st) new.key =
              lookup st new.key := lookup_replace_ne (fun hc => hk hc.symm)
          cases hl2 : lookup st new.key with
          | none =>
            rw [fOAUup_of_lookup_none _ _ (hlnew.trans hl2)]
            dsimp only
            rw [fOAU_of_lookup_pos (fun _ => true)
              (fun r => { r with stockKg := r.stockKg - new.tonnage })
              (lookup_append_self (hlnew.trans hl2)) rfl]
            dsimp only
            rw [replace_append_of_lookup_none (hlnew.trans hl2)]
            rw [fOAU_of_lookup_pos (fun _ => true)
              (fun r => { stockKg := r.stockKg + old.tonnage,
                          sellingPrice := old.sellingPrice }) (lookup_append_some hlold1) rfl]
            dsimp only
            constructor
            · apply keysUnique_replace
              exact keysUnique_append hu1 (hlnew.trans hl2)
            · apply ledgerNonneg_replace
              · apply ledgerNonneg_append hn1
                simp
              · have hq : (0:ℚ) ≤ r1.stockKg := ledgerNonneg_lookup hn hl
                dsimp only
                rw [sub_add_cancel]
                exact hq
          | some r2 =>
            rw [fOAUup_of_lookup_some _ _ (hlnew.trans hl2)]
            dsimp only
            have hlnew2 : lookup (replace new.key
                { stockKg := r2.stockKg + new.tonnage, sellingPrice := new.sellingPrice }
                (replace old.key { r1 with stockKg := r1.stockKg - old.tonnage } st)) new.key =
                some { stockKg := r2.stockKg + new.tonnage,
                       sellingPrice := new.sellingPrice } :=
              lookup_replace_self (hlnew.trans hl2)
            rw [fOAU_of_lookup_pos (fun _ => true)
              (fun r => { r with stockKg := r.stockKg - new.tonnage }) hlnew2 rfl]
            dsimp only
            rw [replace_replace]
            have hlold2 : lookup (replace new.key
                { stockKg := r2.stockKg + new.tonnage - new.tonnage,
                  sellingPrice := new.sellingPrice }
                (replace old.key { r1 with stockKg := r1.stockKg - old.tonnage } st)) old.key =
                some { r1 with stockKg := r1.stockKg - old.tonnage } := by
              rw [lookup_replace_ne hk]
              exact hlold1
            rw [fOAU_of_lookup_pos (fun _ => true)
              (fun r => { stockKg := r.stockKg + old.tonnage,
                          sellingPrice := old.sellingPrice }) hlold2 rfl]
            dsimp only
            constructor
            · exact keysUnique_replace (keysUnique_replace (keysUnique_replace hu))
            · apply ledgerNonneg_replace
              · apply ledgerNonneg_replace
                · exact ledgerNonneg_replace hn (sub_nonneg.mpr hs)
                · have hq : (0:ℚ) ≤ r2.stockKg := ledgerNonneg_lookup hn hl2
                  dsimp only
                  rw [add_sub_cancel_right]
                  exact hq
              · have hq : (0:ℚ) ≤ r1.stockKg := ledgerNonneg_lookup hn hl
                dsimp only
                rw [sub_add_cancel]
                exact hq
      · cases uf with
        | true =>
          rw [applyProcMut_move_insufficient hu hk hl hs] at h
          simp at h
        | false =>
          rw [applyProcMut_move_insufficient hu hk hl hs] at h
          simp at h

/-! ## Event-store helper lemmas -/

theorem lookupId_some_mem {α : Type} {l : List (ℕ × α)} {i : ℕ} {a : α}
    (h : lookupId l i = some a) : (i, a) ∈ l := by
  induction l with
  | nil => simp [lookupId] at h
  | cons e rest ih =>
    by_cases he : e.1 = i
    · simp [lookupId, he] at h
      rcases e with ⟨j, x⟩
      simp_all
    · simp [lookupId, he] at h
      exact List.mem_cons_of_mem _ (ih h)

theorem mem_removeId {α : Type} {l : List (ℕ × α)} {i : ℕ} {e : ℕ × α}
    (h : e ∈ removeId l i) : e ∈ l := by
  induction l with
  | nil => simp [removeId] at h
  | cons e0 rest ih =>
    by_cases he : e0.1 = i
    · simp [removeId, he] at h
      exact List.mem_cons_of_mem _ h
    · simp [removeId, he] at h
      rcases h with h | h
      · simp [h]
      · exact List.mem_cons_of_mem _ (ih h)

theorem mem_replaceId {α : Type} {l : List (ℕ × α)} {i : ℕ} {a : α} {e : ℕ × α}
    (h : e ∈ replaceId l i a) : e ∈ l ∨ e.2 = a := by
  induction l with
  | nil => simp [replaceId] at h
  | cons e0 rest ih =>
    by_cases he : e0.1 = i
    · simp [replaceId, he] at h
      rcases h with h | h
      · right; rw [h]
      · left; exact List.mem_cons_of_mem _ h
    · simp [replaceId, he] at h
      rcases h with h | h
      · left; simp [h]
      · rcases ih h with h' | h'
        · left; exact List.mem_cons_of_mem _ h'
        · right; exact h'

/-! ## Generic preservation facts about the primitives -/

theorem fOAU_preserves {st : Ledger} {k : Key} {p : StockRec → Bool}
    {f : StockRec → StockRec}
    (hu : KeysUnique st) (hn : LedgerNonneg st)
    (hf : ∀ r, 0 ≤ r.stockKg → p r = true → 0 ≤ (f r).stockKg) :
    KeysUnique (fOAU k p f st).2 ∧ LedgerNonneg (fOAU k p f st).2 := by
  cases hl : lookup st k with
  | none =>
    rw [fOAU_of_lookup_none p f hl]
    exact ⟨hu, hn⟩
  | some r =>
    cases hp : p r with
    | false =>
      rw [fOAU_of_guard_fail p f hu hl hp]
      exact ⟨hu, hn⟩
    | true =>
      rw [fOAU_of_lookup_pos p f hl hp]
      exact ⟨keysUnique_replace hu,
        ledgerNonneg_replace hn (hf r (ledgerNonneg_lookup hn hl) hp)⟩

/-- An unconditional increment followed by the exactly opposite decrement is
the identity on the ledger (both silently no-op when the key is absent). -/
theorem fOAU_inc_dec_exact {st : Ledger} {k : Key} {t : ℚ} :
    (fOAU k (fun _ => true) (fun r => { r with stockKg := r.stockKg - t })
      ((fOAU k (fun _ => true) (fun r => { r with stockKg := r.stockKg + t }) st).2)).2 = st := by
  cases hl : lookup st k with
  | none =>
    rw [fOAU_of_lookup_none (fun _ => true)
      (fun r => { r with stockKg := r.stockKg + t }) hl]
    dsimp only
    rw [fOAU_of_lookup_none (fun _ => true)
      (fun r => { r with stockKg := r.stockKg - t }) hl]
  | some r =>
    rw [fOAU_of_lookup_pos (fun _ => true)
      (fun r => { r with stockKg := r.stockKg + t }) hl rfl]
    dsimp only
    rw [fOAU_of_lookup_pos (fun _ => true)
      (fun r => { r with stockKg := r.stockKg - t })
      (lookup_replace_self hl) rfl]
    dsimp only
    rw [replace_replace]
    simp only [add_sub_cancel_right, stockRec_eta]
    exact replace_lookup_self hl

/-- Under the unique index, membership determines `lookup`. -/
theorem lookup_of_mem_unique {st : Ledger} (hu : KeysUnique st) {e : Key × StockRec}
    (he : e ∈ st) : lookup st e.1 = some e.2 := by
  induction st with
  | nil => simp at he
  | cons e0 rest ih =>
    rw [KeysUnique, List.map_cons, List.nodup_cons] at hu
    rcases List.mem_cons.mp he with h | h
    · rw [h]
      simp [lookup]
    · have hne : ¬ e0.1 = e.1 := by
        intro hc
        exact hu.1 (hc ▸ List.mem_map_of_mem _ h)
      simp [lookup, hne]
      exact ih hu.2 h

/-- A record resolved by `fetchInventoryForSale` is a document of the ledger. -/
theorem fetch_ok_mem {st : Ledger} {n : String} {ty : Option String} {br : String}
    {k : Key} {r : StockRec}
    (h : fetchInventoryForSale st n ty br = .ok (some (k, r))) : (k, r) ∈ st := by
  cases ty with
  | some t =>
    simp only [fetchInventoryForSale] at h
    cases hl : lookup st ⟨n, t, br⟩ with
    | none => rw [hl] at h; simp at h
    | some r0 =>
      rw [hl] at h
      simp only [Except.ok.injEq, Option.some.injEq, Prod.mk.injEq] at h
      rw [← h.1, ← h.2]
      exact lookup_some_mem hl
  | none =>
    simp only [fetchInventoryForSale] at h
    cases hf : st.filter (fun e => e.1.produceName = n ∧ e.1.branch = br) with
    | nil => rw [hf] at h; simp at h
    | cons m rest =>
      cases rest with
      | nil =>
        rw [hf] at h
        simp only [Except.ok.injEq, Option.some.injEq] at h
        have : m ∈ st.filter (fun e => e.1.produceName = n ∧ e.1.branch = br) := by
          rw [hf]; simp
        rw [← h]
        exact List.mem_of_mem_filter this
      | cons m2 rest2 => rw [hf] at h; simp at h

/-! ## Per-operation invariant preservation -/

theorem createProcurement_preserves {st st' : Ledger}
    {procs procs' : List (ℕ × ProcEvent)}
    {p : ProcEvent} {newId : ℕ} {cf invf : Bool} {res : Except ProcErr Unit}
    (hu : KeysUnique st) (hn : LedgerNonneg st)
    (hp : ∀ e ∈ procs, 0 ≤ e.2.tonnage) (hT : 0 ≤ p.tonnage)
    (h : createProcurement st procs p newId cf invf = (res, st', procs')) :
    KeysUnique st' ∧ LedgerNonneg st' ∧ ∀ e ∈ procs', 0 ≤ e.2.tonnage := by
  have hmem : ∀ e ∈ procs ++ [(newId, p)], 0 ≤ e.2.tonnage := by
    intro e he
    rcases List.mem_append.mp he with h2 | h2
    · exact hp e h2
    · simp at h2
      rw [h2]
      exact hT
  simp only [createProcurement] at h
  cases cf with
  | true =>
    simp only [eq_self_iff_true, if_true, Bool.false_eq_true, if_false, Prod.mk.injEq] at h
    rw [← h.2.1, ← h.2.2]
    exact ⟨hu, hn, hp⟩
  | false =>
    cases invf with
    | true =>
      simp only [eq_self_iff_true, if_true, Bool.false_eq_true, if_false, Prod.mk.injEq] at h
      rw [← h.2.1, ← h.2.2]
      exact ⟨hu, hn, hmem⟩
    | false =>
      simp only [eq_self_iff_true, if_true, Bool.false_eq_true, if_false, Prod.mk.injEq] at h
      rw [← h.2.1, ← h.2.2]
      refine ⟨?_, ?_, hmem⟩
      · cases hl : lookup st p.key with
        | none =>
          rw [fOAUup_of_lookup_none _ _ hl]
          exact keysUnique_append hu hl
        | some r =>
          rw [fOAUup_of_lookup_some _ _ hl]
          exact keysUnique_replace hu
      · cases hl : lookup st p.key with
        | none =>
          rw [fOAUup_of_lookup_none _ _ hl]
          exact ledgerNonneg_append hn hT
        | some r =>
          rw [fOAUup_of_lookup_some _ _ hl]
          exact ledgerNonneg_replace hn
            (add_nonneg (ledgerNonneg_lookup hn hl) hT)

theorem deleteProcurementById_preserves {st st' : Ledger}
    {procs procs' : List (ℕ × ProcEvent)} {i : ℕ} {df : Bool} {res : Except ProcErr Unit}
    (hu : KeysUnique st) (hn : LedgerNonneg st)
    (hp : ∀ e ∈ procs, 0 ≤ e.2.tonnage)
    (h : deleteProcurementById st procs i df = (res, st', procs')) :
    KeysUnique st' ∧ LedgerNonneg st' ∧ ∀ e ∈ procs', 0 ≤ e.2.tonnage := by
  simp only [deleteProcurementById] at h
  cases hl : lookupId procs i with
  | none =>
    rw [hl] at h
    simp only [Prod.mk.injEq] at h
    rw [← h.2.1, ← h.2.2]
    exact ⟨hu, hn, hp⟩
  | some pr =>
    rw [hl] at h
    dsimp only at h
    cases hli : lookup st pr.key with
    | none =>
      rw [fOAU_of_lookup_none (fun r => pr.tonnage ≤ r.stockKg)
        (fun r => { r with stockKg := r.stockKg - pr.tonnage }) hli] at h
      simp only [Prod.mk.injEq] at h
      rw [← h.2.1, ← h.2.2]
      exact ⟨hu, hn, hp⟩
    | some r =>
      by_cases hs : pr.tonnage ≤ r.stockKg
      · rw [fOAU_of_lookup_pos (fun r => pr.tonnage ≤ r.stockKg)
          (fun r => { r with stockKg := r.stockKg - pr.tonnage }) hli (by simp [hs])] at h
        cases df with
        | true =>
          simp only [eq_self_iff_true, if_true, Bool.false_eq_true, if_false, Prod.mk.injEq] at h
          rw [← h.2.1, ← h.2.2]
          rw [fOAU_of_lookup_pos (fun _ => true)
            (fun r => { r with stockKg := r.stockKg + pr.tonnage })
            (lookup_replace_self hli) rfl]
          dsimp only
          rw [replace_replace]
          simp only [sub_add_cancel, stockRec_eta]
          rw [replace_lookup_self hli]
          exact ⟨hu, hn, hp⟩
        | false =>
          simp only [eq_self_iff_true, if_true, Bool.false_eq_true, if_false, Prod.mk.injEq] at h
          rw [← h.2.1, ← h.2.2]
          refine ⟨keysUnique_replace hu, ledgerNonneg_replace hn (sub_nonneg.mpr hs), ?_⟩
          intro e he
          exact hp e (mem_removeId he)
      · rw [fOAU_of_guard_fail (fun r => pr.tonnage ≤ r.stockKg)
          (fun r => { r with stockKg := r.stockKg - pr.tonnage }) hu hli (by simp [hs])] at h
        simp only [Prod.mk.injEq] at h
        rw [← h.2.1, ← h.2.2]
        exact ⟨hu, hn, hp⟩

theorem updateProcurementById_preserves {st st' : Ledger}
    {procs procs' : List (ℕ × ProcEvent)} {i : ℕ} {b : ProcUpdateBody} {uf sf : Bool}
    {res : Except ProcErr Unit}
    (hu : KeysUnique st) (hn : LedgerNonneg st)
    (hp : ∀ e ∈ procs, 0 ≤ e.2.tonnage) (hb : ∀ t ∈ b.tonnage, 0 ≤ t)
    (h : updateProcurementById st procs i b uf sf = (res, st', procs')) :
    KeysUnique st' ∧ LedgerNonneg st' ∧ ∀ e ∈ procs', 0 ≤ e.2.tonnage := by
  simp only [updateProcurementById] at h
  cases hl : lookupId procs i with
  | none =>
    rw [hl] at h
    simp only [Prod.mk.injEq] at h
    rw [← h.2.1, ← h.2.2]
    exact ⟨hu, hn, hp⟩
  | some old =>
    rw [hl] at h
    dsimp only at h
    have hnextT : 0 ≤ (mergeProcData old b).tonnage := by
      cases hbt : b.tonnage with
      | none =>
        simp only [mergeProcData, hbt, Option.getD_none]
        exact hp _ (lookupId_some_mem hl)
      | some t =>
        simp only [mergeProcData, hbt, Option.getD_some]
        exact hb t (by rw [hbt]; simp)
    rcases hm : applyInventoryForProcurementMutation old (mergeProcData old b) uf st
      with ⟨res1, st1⟩
    rw [hm] at h
    cases res1 with
    | error e =>
      simp only [Prod.mk.injEq] at h
      rw [← h.2.1, ← h.2.2]
      rcases applyProcMut_preserves hu hn hnextT hm with ⟨hu1, hn1⟩
      exact ⟨hu1, hn1, hp⟩
    | ok rb =>
      cases sf with
      | true =>
        simp only [eq_self_iff_true, if_true, Bool.false_eq_true, if_false, Prod.mk.injEq] at h
        rw [← h.2.1, ← h.2.2]
        rcases applyProcMut_rollback_preserves hu hn hm with ⟨hu1, hn1⟩
        exact ⟨hu1, hn1, hp⟩
      | false =>
        simp only [eq_self_iff_true, if_true, Bool.false_eq_true, if_false, Prod.mk.injEq] at h
        rw [← h.2.1, ← h.2.2]
        rcases applyProcMut_preserves hu hn hnextT hm with ⟨hu1, hn1⟩
        refine ⟨hu1, hn1, ?_⟩
        intro e he
        rcases mem_replaceId he with h2 | h2
        · exact hp e h2
        · rw [h2]
          exact hnextT

theorem createSaleFromPayload_preserves {st st' : Ledger}
    {sales sales' : List (ℕ × SaleEvent)} {notes : List String}
    {ty : SaleType} {p : SalePayload} {newId : ℕ} {pf : Bool} {res : Except SaleErr Unit}
    (hu : KeysUnique st) (hn : LedgerNonneg st)
    (hsal : ∀ e ∈ sales, 0 ≤ e.2.tonnage) (hT : 0 ≤ p.tonnage)
    (h : createSaleFromPayload st sales ty p newId pf = (res, st', sales', notes)) :
    KeysUnique st' ∧ LedgerNonneg st' ∧ ∀ e ∈ sales', 0 ≤ e.2.tonnage := by
  simp only [createSaleFromPayload] at h
  cases hf : fetchInventoryForSale st p.produceName p.produceType p.branch with
  | error e =>
    rw [hf] at h
    dsimp only at h
    simp only [Prod.mk.injEq] at h
    rw [← h.2.1, ← h.2.2.1]
    exact ⟨hu, hn, hsal⟩
  | ok oinv =>
    rw [hf] at h
    cases oinv with
    | none =>
      dsimp only at h
      simp only [Prod.mk.injEq] at h
      rw [← h.2.1, ← h.2.2.1]
      exact ⟨hu, hn, hsal⟩
    | some kinv =>
      rcases kinv with ⟨k, inv⟩
      dsimp only at h
      have hlk : lookup st k = some inv := lookup_of_mem_unique hu (fetch_ok_mem hf)
      by_cases h10 : inv.sellingPrice * p.tonnage < 10000
      · rw [if_pos h10] at h
        simp only [Prod.mk.injEq] at h
        rw [← h.2.1, ← h.2.2.1]
        exact ⟨hu, hn, hsal⟩
      · rw [if_neg h10] at h
        by_cases hpr : ¬ nearlyEqual p.amount (inv.sellingPrice * p.tonnage) = true
        · rw [if_pos hpr] at h
          simp only [Prod.mk.injEq] at h
          rw [← h.2.1, ← h.2.2.1]
          exact ⟨hu, hn, hsal⟩
        · rw [if_neg hpr] at h
          by_cases hs : p.tonnage ≤ inv.stockKg
          · rw [fOAU_of_lookup_pos (fun r => p.tonnage ≤ r.stockKg)
              (fun r => { r with stockKg := r.stockKg - p.tonnage }) hlk (by simp [hs])] at h
            dsimp only at h
            cases pf with
            | true =>
              simp only [eq_self_iff_true, if_true, Bool.false_eq_true, if_false,
                Prod.mk.injEq] at h
              rw [← h.2.1, ← h.2.2.1]
              rw [fOAU_of_lookup_pos (fun _ => true)
                (fun r => { r with stockKg := r.stockKg + p.tonnage })
                (lookup_replace_self hlk) rfl]
              dsimp only
              rw [replace_replace]
              simp only [sub_add_cancel, stockRec_eta]
              rw [replace_lookup_self hlk]
              exact ⟨hu, hn, hsal⟩
            | false =>
              simp only [eq_self_iff_true, if_true, Bool.false_eq_true, if_false,
                Prod.mk.injEq] at h
              rw [← h.2.1, ← h.2.2.1]
              refine ⟨keysUnique_replace hu, ledgerNonneg_replace hn (sub_nonneg.mpr hs), ?_⟩
              intro e he
              rcases List.mem_append.mp he with h2 | h2
              · exact hsal e h2
              · simp at h2
                rw [h2]
                exact hT
          · rw [fOAU_of_guard_fail (fun r => p.tonnage ≤ r.stockKg)
              (fun r => { r with stockKg := r.stockKg - p.tonnage }) hu hlk (by simp [hs])] at h
            dsimp only at h
            simp only [Prod.mk.injEq] at h
            rw [← h.2.1, ← h.2.2.1]
            exact ⟨hu, hn, hsal⟩

theorem updateSaleById_preserves {st st' : Ledger}
    {sales sales' : List (ℕ × SaleEvent)} {i : ℕ} {b : SaleUpdateBody} {sf : Bool}
    {res : Except SaleErr Unit}
    (hu : KeysUnique st) (hn : LedgerNonneg st)
    (hsal : ∀ e ∈ sales, 0 ≤ e.2.tonnage) (hb : ∀ t ∈ b.tonnage, 0 ≤ t)
    (h : updateSaleById st sales i b sf = (res, st', sales')) :
    KeysUnique st' ∧ LedgerNonneg st' ∧ ∀ e ∈ sales', 0 ≤ e.2.tonnage := by
  simp only [updateSaleById] at h
  cases hl : lookupId sales i with
  | none =>
    rw [hl] at h
    dsimp only at h
    simp only [Prod.mk.injEq] at h
    rw [← h.2.1, ← h.2.2]
    exact ⟨hu, hn, hsal⟩
  | some sale =>
    rw [hl] at h
    dsimp only at h
    have hOldT : 0 ≤ sale.tonnage := hsal _ (lookupId_some_mem hl)
    have hNextT : 0 ≤ b.tonnage.getD sale.tonnage := by
      cases hbt : b.tonnage with
      | none => simp only [Option.getD_none]; exact hOldT
      | some t => simp only [Option.getD_some]; exact hb t (by rw [hbt]; simp)
    by_cases hty : b.saleType.isSome = true ∧ ¬ b.saleType = some sale.saleType
    · rw [if_pos hty] at h
      simp only [Prod.mk.injEq] at h
      rw [← h.2.1, ← h.2.2]
      exact ⟨hu, hn, hsal⟩
    · rw [if_neg hty] at h
      cases hli : lookup st (mergeSaleKey sale b) with
      | none =>
        rw [hli] at h
        dsimp only at h
        simp only [Prod.mk.injEq] at h
        rw [← h.2.1, ← h.2.2]
        exact ⟨hu, hn, hsal⟩
      | some inv =>
        rw [hli] at h
        dsimp only at h
        by_cases h10 : inv.sellingPrice * b.tonnage.getD sale.tonnage < 10000
        · rw [if_pos h10] at h
          simp only [Prod.mk.injEq] at h
          rw [← h.2.1, ← h.2.2]
          exact ⟨hu, hn, hsal⟩
        · rw [if_neg h10] at h
          by_cases hpr : ¬ nearlyEqual (b.amount.getD sale.amount)
              (inv.sellingPrice * b.tonnage.getD sale.tonnage) = true
          · rw [if_pos hpr] at h
            simp only [Prod.mk.injEq] at h
            rw [← h.2.1, ← h.2.2]
            exact ⟨hu, hn, hsal⟩
          · rw [if_neg hpr] at h
            rcases hm : applySaleInventoryMutation sale.key (mergeSaleKey sale b)
              sale.tonnage (b.tonnage.getD sale.tonnage) st with ⟨res1, st1⟩
            rw [hm] at h
            cases res1 with
            | error e =>
              dsimp only at h
              simp only [Prod.mk.injEq] at h
              rw [← h.2.1, ← h.2.2]
              rcases applySaleMut_preserves hu hn hOldT hm with ⟨hu1, hn1⟩
              exact ⟨hu1, hn1, hsal⟩
            | ok rb =>
              dsimp only at h
              cases sf with
              | true =>
                simp only [eq_self_iff_true, if_true, Bool.false_eq_true, if_false,
                  Prod.mk.injEq] at h
                rw [← h.2.1, ← h.2.2]
                rw [applySaleMut_rollback_exact hu hm]
                exact ⟨hu, hn, hsal⟩
              | false =>
                simp only [eq_self_iff_true, if_true, Bool.false_eq_true, if_false,
                  Prod.mk.injEq] at h
                rw [← h.2.1, ← h.2.2]
                rcases applySaleMut_preserves hu hn hOldT hm with ⟨hu1, hn1⟩
                refine ⟨hu1, hn1, ?_⟩
                intro e he
                rcases mem_replaceId he with h2 | h2
                · exact hsal e h2
                · rw [h2]
                  exact hNextT

theorem deleteSaleById_preserves {st st' : Ledger}
    {sales sales' : List (ℕ × SaleEvent)} {i : ℕ} {df : Bool} {res : Except SaleErr Unit}
    (hu : KeysUnique st) (hn : LedgerNonneg st)
    (hsal : ∀ e ∈ sales, 0 ≤ e.2.tonnage)
    (h : deleteSaleById st sales i df = (res, st', sales')) :
    KeysUnique st' ∧ LedgerNonneg st' ∧ ∀ e ∈ sales', 0 ≤ e.2.tonnage := by
  simp only [deleteSaleById] at h
  cases hl : lookupId sales i with
  | none =>
    rw [hl] at h
    dsimp only at h
    simp only [Prod.mk.injEq] at h
    rw [← h.2.1, ← h.2.2]
    exact ⟨hu, hn, hsal⟩
  | some sale =>
    rw [hl] at h
    dsimp only at h
    have hT : 0 ≤ sale.tonnage := hsal _ (lookupId_some_mem hl)
    cases df with
    | true =>
      simp only [eq_self_iff_true, if_true, Bool.false_eq_true, if_false,
        Prod.mk.injEq] at h
      rw [← h.2.1, ← h.2.2]
      rw [fOAU_inc_dec_exact]
      exact ⟨hu, hn, hsal⟩
    | false =>
      simp only [eq_self_iff_true, if_true, Bool.false_eq_true, if_false,
        Prod.mk.injEq] at h
      rw [← h.2.1, ← h.2.2]
      rcases fOAU_preserves (k := sale.key) (p := fun _ => true)
        (f := fun r => { r with stockKg := r.stockKg + sale.tonnage }) hu hn
        (fun r hr _ => add_nonneg hr hT) with ⟨hu1, hn1⟩
      exact ⟨hu1, hn1, fun e he => hsal e (mem_removeId he)⟩

/-! ## The composite system -/

structure SysState where
  ledger : Ledger
  procs : List (ℕ × ProcEvent)
  sales : List (ℕ × SaleEvent)

/-- The system invariant: the unique compound index holds, every stock
quantity is non-negative, and every stored event carries a non-negative
tonnage. -/
def Inv (s : SysState) : Prop :=
  KeysUnique s.ledger ∧ LedgerNonneg s.ledger ∧
  (∀ e ∈ s.procs, 0 ≤ e.2.tonnage) ∧ (∀ e ∈ s.sales, 0 ≤ e.2.tonnage)

/-- One ledger-touching API operation, on a payload that passed the route
validators (tonnage ≥ 100 for procurements, > 0 for sales, on create and — when
supplied — on update), with arbitrary failure injection on every persistence
step and arbitrary target ids. -/
inductive Step : SysState → SysState → Prop where
  | procCreate {s : SysState} {res : Except ProcErr Unit} {st' : Ledger}
      {procs' : List (ℕ × ProcEvent)} (p : ProcEvent) (newId : ℕ) (cf invf : Bool)
      (hT : 100 ≤ p.tonnage)
      (h : createProcurement s.ledger s.procs p newId cf invf = (res, st', procs')) :
      Step s ⟨st', procs', s.sales⟩
  | procUpdate {s : SysState} {res : Except ProcErr Unit} {st' : Ledger}
      {procs' : List (ℕ × ProcEvent)} (i : ℕ) (b : ProcUpdateBody) (uf sf : Bool)
      (hT : ∀ t ∈ b.tonnage, 100 ≤ t)
      (h : updateProcurementById s.ledger s.procs i b uf sf = (res, st', procs')) :
      Step s ⟨st', procs', s.sales⟩
  | procDelete {s : SysState} {res : Except ProcErr Unit} {st' : Ledger}
      {procs' : List (ℕ × ProcEvent)} (i : ℕ) (df : Bool)
      (h : deleteProcurementById s.ledger s.procs i df = (res, st', procs')) :
      Step s ⟨st', procs', s.sales⟩
  | saleCreate {s : SysState} {res : Except SaleErr Unit} {st' : Ledger}
      {sales' : List (ℕ × SaleEvent)} {notes : List String}
      (ty : SaleType) (p : SalePayload) (newId : ℕ) (pf : Bool)
      (hT : 0 < p.tonnage)
      (h : createSaleFromPayload s.ledger s.sales ty p newId pf = (res, st', sales', notes)) :
      Step s ⟨st', s.procs, sales'⟩
  | saleUpdate {s : SysState} {res : Except SaleErr Unit} {st' : Ledger}
      {sales' : List (ℕ × SaleEvent)} (i : ℕ) (b : SaleUpdateBody) (sf : Bool)
      (hT : ∀ t ∈ b.tonnage, 0 < t)
      (h : updateSaleById s.ledger s.sales i b sf = (res, st', sales')) :
      Step s ⟨st', s.procs, sales'⟩
  | saleDelete {s : SysState} {res : Except SaleErr Unit} {st' : Ledger}
      {sales' : List (ℕ × SaleEvent)} (i : ℕ) (df : Bool)
      (h : deleteSaleById s.ledger s.sales i df = (res, st', sales')) :
      Step s ⟨st', s.procs, sales'⟩

/-- The empty stores. -/
def initState : SysState := ⟨[], [], []⟩

def Reachable (s : SysState) : Prop := Relation.ReflTransGen Step initState s

theorem step_preserves_inv {s s' : SysState} (hs : Inv s) (h : Step s s') : Inv s' := by
  rcases hs with ⟨hu, hn, hp, hsal⟩
  cases h with
  | procCreate p newId cf invf hT h =>
    rcases createProcurement_preserves hu hn hp
      (le_trans (by norm_num) hT) h with ⟨a, b, c⟩
    exact ⟨a, b, c, hsal⟩
  | procUpdate i b uf sf hT h =>
    rcases updateProcurementById_preserves hu hn hp
      (fun t ht => le_trans (by norm_num) (hT t ht)) h with ⟨a, b2, c⟩
    exact ⟨a, b2, c, hsal⟩
  | procDelete i df h =>
    rcases deleteProcurementById_preserves hu hn hp h with ⟨a, b, c⟩
    exact ⟨a, b, c, hsal⟩
  | saleCreate ty p newId pf hT h =>
    rcases createSaleFromPayload_preserves hu hn hsal (le_of_lt hT) h with ⟨a, b, c⟩
    exact ⟨a, b, hp, c⟩
  | saleUpdate i b sf hT h =>
    rcases updateSaleById_preserves hu hn hsal
      (fun t ht => le_of_lt (hT t ht)) h with ⟨a, b2, c⟩
    exact ⟨a, b2, hp, c⟩
  | saleDelete i df h =>
    rcases deleteSaleById_preserves hu hn hsal h with ⟨a, b, c⟩
    exact ⟨a, b, hp, c⟩

theorem reachable_inv {s : SysState} (h : Reachable s) : Inv s := by
  induction h with
  | refl =>
    refine ⟨?_, ?_, ?_, ?_⟩ <;> simp [initState, KeysUnique, LedgerNonneg]
  | tail h1 h2 ih => exact step_preserves_inv ih h2

/-- C1: in every reachable state — any sequence of procurement intakes, sale
creations, revisions and removals, with any injected persistence failures —
every ledger document has `stockKg ≥ 0`, and the (produceName, produceType,
branch) key is unique: every decrement goes through a guarded conditional
update, so no sequence of operations drives a quantity negative. -/
theorem stock_quantity_never_negative {s : SysState} (h : Reachable s) :
    (∀ e ∈ s.ledger, 0 ≤ e.2.stockKg) ∧ KeysUnique s.ledger :=
  ⟨(reachable_inv h).2.1, (reachable_inv h).1⟩

/-- Scenario A's intake payload: (Beans, Grain, Maganjo), 500 kg at price 100. -/
def introPayload : ProcEvent := ⟨⟨"Beans", "Grain", "Maganjo"⟩, 500, 100⟩

theorem stock_quantity_never_negative_witness :
    (∀ e ∈ ([(⟨"Beans", "Grain", "Maganjo"⟩, ⟨500, 100⟩)] : Ledger), 0 ≤ e.2.stockKg) ∧
    KeysUnique [(⟨"Beans", "Grain", "Maganjo"⟩, (⟨500, 100⟩ : StockRec))] := by
  have hstep : Step initState
      ⟨[(⟨"Beans", "Grain", "Maganjo"⟩, ⟨500, 100⟩)], [(0, introPayload)], []⟩ := by
    have h : createProcurement initState.ledger initState.procs introPayload 0 false false =
        (.ok (), [(⟨"Beans", "Grain", "Maganjo"⟩, ⟨500, 100⟩)], [(0, introPayload)]) := rfl
    exact Step.procCreate introPayload 0 false false (by norm_num [introPayload]) h
  exact stock_quantity_never_negative
    (Relation.ReflTransGen.tail Relation.ReflTransGen.refl hstep)

/-! ## C2: intake ordering and compensation -/

/-- The intake procedure as the specification describes it: apply the upsert
stock adjustment first; on success persist the ProcurementEvent; if persisting
fails, run the compensation to restore prior stock, then surface the error.
Modelled from the spec for comparison with `createProcurement`. -/
def createProcurementSpec (st : Ledger) (procs : List (ℕ × ProcEvent)) (p : ProcEvent)
    (newId : ℕ) (persistFails : Bool) :
    Except ProcErr Unit × Ledger × List (ℕ × ProcEvent) :=
  let (_, st1) := fOAUup p.key
    (fun r => { stockKg := r.stockKg + p.tonnage, sellingPrice := p.sellingPrice })
    { stockKg := p.tonnage, sellingPrice := p.sellingPrice } st
  if persistFails then
    (.error .persistFailed,
     (fOAU p.key (fun _ => true)
       (fun r => { r with stockKg := r.stockKg - p.tonnage }) st1).2, procs)
  else
    (.ok (), st1, procs ++ [(newId, p)])

/-- C2 counterexample: `createProcurement` persists the event BEFORE touching
the ledger.  With the inventory step failing (and event persistence
succeeding), the code returns a failure yet leaves the ProcurementEvent
persisted and the ledger untouched — impossible under the claimed
adjust-first / persist-second / compensate-on-persist-failure ordering, under
which a failed intake never leaves a persisted event (as the spec-modelled
`createProcurementSpec` shows at the same input, for both flag values). -/
theorem intake_order_counterexample :
    (createProcurement [] [] introPayload 0 false true).1 = .error .persistFailed ∧
    (createProcurement [] [] introPayload 0 false true).2.2 = [(0, introPayload)] ∧
    (createProcurement [] [] introPayload 0 false true).2.1 = [] ∧
    (createProcurementSpec [] [] introPayload 0 true).2.2 = [] ∧
    (createProcurementSpec [] [] introPayload 0 false).1 = .ok () :=
  ⟨rfl, rfl, rfl, rfl, rfl⟩

/-- C2 amended: intake persists the ProcurementEvent first and only then
applies an UNGUARDED upsert increment with the event's price; there is no
compensation: when event persistence fails nothing has been mutated, when the
inventory step fails the already-persisted event is kept; either way the
ledger is unchanged whenever intake returns a failure. -/
theorem intake_persist_first_no_compensation
    {st st' : Ledger} {procs procs' : List (ℕ × ProcEvent)}
    {p : ProcEvent} {newId : ℕ} {cf invf : Bool} {res : Except ProcErr Unit}
    (h : createProcurement st procs p newId cf invf = (res, st', procs')) :
    (res = .error .persistFailed → st' = st) ∧
    (cf = true → res = .error .persistFailed ∧ st' = st ∧ procs' = procs) ∧
    (cf = false → invf = true →
      res = .error .persistFailed ∧ st' = st ∧ procs' = procs ++ [(newId, p)]) ∧
    (cf = false → invf = false →
      res = .ok () ∧ procs' = procs ++ [(newId, p)] ∧
      st' = (fOAUup p.key
              (fun r => { stockKg := r.stockKg + p.tonnage,
                          sellingPrice := p.sellingPrice })
              { stockKg := p.tonnage, sellingPrice := p.sellingPrice } st).2) := by
  simp only [createProcurement] at h
  cases cf with
  | true =>
    simp only [eq_self_iff_true, if_true, Bool.false_eq_true, if_false,
      Prod.mk.injEq] at h
    refine ⟨fun _ => h.2.1.symm, fun _ => ⟨h.1.symm, h.2.1.symm, h.2.2.symm⟩,
      fun hc => absurd hc (by simp), fun hc => absurd hc (by simp)⟩
  | false =>
    cases invf with
    | true =>
      simp only [eq_self_iff_true, if_true, Bool.false_eq_true, if_false,
        Prod.mk.injEq] at h
      refine ⟨fun _ => h.2.1.symm, fun hc => absurd hc (by simp),
        fun _ _ => ⟨h.1.symm, h.2.1.symm, h.2.2.symm⟩, fun _ hc => absurd hc (by simp)⟩
    | false =>
      simp only [eq_self_iff_true, if_true, Bool.false_eq_true, if_false,
        Prod.mk.injEq] at h
      refine ⟨?_, fun hc => absurd hc (by simp), fun _ hc => absurd hc (by simp),
        fun _ _ => ⟨h.1.symm, h.2.2.symm, h.2.1.symm⟩⟩
      intro hres
      rw [← h.1] at hres
      simp at hres

theorem intake_persist_first_no_compensation_witness :
    ((.error .persistFailed : Except ProcErr Unit) = .error .persistFailed →
      ([] : Ledger) = []) ∧
    (false = true → (.error .persistFailed : Except ProcErr Unit) = .error .persistFailed ∧
      ([] : Ledger) = [] ∧ [(0, introPayload)] = ([] : List (ℕ × ProcEvent))) ∧
    (false = false → true = true →
      (.error .persistFailed : Except ProcErr Unit) = .error .persistFailed ∧
      ([] : Ledger) = [] ∧
      [(0, introPayload)] = [] ++ [(0, introPayload)]) ∧
    (false = false → true = false →
      (.error .persistFailed : Except ProcErr Unit) = .ok () ∧
      [(0, introPayload)] = [] ++ [(0, introPayload)] ∧
      ([] : Ledger) = (fOAUup introPayload.key
        (fun r => { stockKg := r.stockKg + introPayload.tonnage,
                    sellingPrice := introPayload.sellingPrice })
        { stockKg := introPayload.tonnage,
          sellingPrice := introPayload.sellingPrice } []).2) :=
  @intake_persist_first_no_compensation [] [] [] [(0, introPayload)]
    introPayload 0 false true (.error .persistFailed) rfl

/-! ## C3: create-then-delete round trip -/

/-- C3 counterexample: with a pre-existing record (quantity 100, price 50),
creating a procurement of 200 kg at price 70 and then deleting it leaves the
record at (quantity 100, price 70): the quantity is restored but the
previously set unit selling price 50 is not. -/
theorem create_delete_roundtrip_counterexample :
    (createProcurement [(⟨"Beans", "Grain", "Maganjo"⟩, ⟨100, 50⟩)] []
        ⟨⟨"Beans", "Grain", "Maganjo"⟩, 200, 70⟩ 0 false false).1 = .ok () ∧
    (deleteProcurementById
        (createProcurement [(⟨"Beans", "Grain", "Maganjo"⟩, ⟨100, 50⟩)] []
          ⟨⟨"Beans", "Grain", "Maganjo"⟩, 200, 70⟩ 0 false false).2.1
        (createProcurement [(⟨"Beans", "Grain", "Maganjo"⟩, ⟨100, 50⟩)] []
          ⟨⟨"Beans", "Grain", "Maganjo"⟩, 200, 70⟩ 0 false false).2.2
        0 false).1 = .ok () ∧
    (deleteProcurementById
        (createProcurement [(⟨"Beans", "Grain", "Maganjo"⟩, ⟨100, 50⟩)] []
          ⟨⟨"Beans", "Grain", "Maganjo"⟩, 200, 70⟩ 0 false false).2.1
        (createProcurement [(⟨"Beans", "Grain", "Maganjo"⟩, ⟨100, 50⟩)] []
          ⟨⟨"Beans", "Grain", "Maganjo"⟩, 200, 70⟩ 0 false false).2.2
        0 false).2.1 = [(⟨"Beans", "Grain", "Maganjo"⟩, ⟨100, 70⟩)] ∧
    ([(⟨"Beans", "Grain", "Maganjo"⟩, (⟨100, 70⟩ : StockRec))] : Ledger) ≠
      [(⟨"Beans", "Grain", "Maganjo"⟩, ⟨100, 50⟩)] := by
  have hl : lookup [(⟨"Beans", "Grain", "Maganjo"⟩, (⟨100, 50⟩ : StockRec))]
      ⟨"Beans", "Grain", "Maganjo"⟩ = some ⟨100, 50⟩ := by decide
  have hcr : createProcurement [(⟨"Beans", "Grain", "Maganjo"⟩, ⟨100, 50⟩)] []
      ⟨⟨"Beans", "Grain", "Maganjo"⟩, 200, 70⟩ 0 false false =
      (.ok (), [(⟨"Beans", "Grain", "Maganjo"⟩, ⟨300, 70⟩)],
       [(0, ⟨⟨"Beans", "Grain", "Maganjo"⟩, 200, 70⟩)]) := by
    simp only [createProcurement, Bool.false_eq_true, if_false]
    rw [fOAUup_of_lookup_some _ _ hl]
    norm_num [replace]
  have hl1 : lookup [(⟨"Beans", "Grain", "Maganjo"⟩, (⟨300, 70⟩ : StockRec))]
      ⟨"Beans", "Grain", "Maganjo"⟩ = some ⟨300, 70⟩ := by decide
  have hdel : deleteProcurementById [(⟨"Beans", "Grain", "Maganjo"⟩, ⟨300, 70⟩)]
      [(0, ⟨⟨"Beans", "Grain", "Maganjo"⟩, 200, 70⟩)] 0 false =
      (.ok (), [(⟨"Beans", "Grain", "Maganjo"⟩, ⟨100, 70⟩)], []) := by
    simp only [deleteProcurementById, lookupId, eq_self_iff_true, if_true]
    rw [fOAU_of_lookup_pos (fun r => (200 : ℚ) ≤ r.stockKg)
      (fun r => { r with stockKg := r.stockKg - 200 }) hl1 (by norm_num)]
    norm_num [replace, removeId]
  rw [hcr]
  rw [hdel]
  exact ⟨rfl, rfl, rfl, by decide⟩

/-- C3 amended: for a key with an existing record, create-then-delete (no
other interleaved activity, both persistence steps succeeding) restores the
QUANTITY exactly — the whole ledger becomes `replace k ⟨q₀, event price⟩` —
but the unit selling price is left at the event's price, so the exact
pre-create record returns only when the event's price equals the prior one;
the created event is removed again. -/
theorem create_delete_restores_quantity {st : Ledger} {k : Key} {r0 : StockRec}
    {t price : ℚ} {newId : ℕ}
    (hl : lookup st k = some r0) (h0 : 0 ≤ r0.stockKg) :
    (createProcurement st [] ⟨k, t, price⟩ newId false false).1 = .ok () ∧
    (deleteProcurementById (createProcurement st [] ⟨k, t, price⟩ newId false false).2.1
        (createProcurement st [] ⟨k, t, price⟩ newId false false).2.2 newId false).1 =
      .ok () ∧
    (deleteProcurementById (createProcurement st [] ⟨k, t, price⟩ newId false false).2.1
        (createProcurement st [] ⟨k, t, price⟩ newId false false).2.2 newId false).2.1 =
      replace k ⟨r0.stockKg, price⟩ st ∧
    (deleteProcurementById (createProcurement st [] ⟨k, t, price⟩ newId false false).2.1
        (createProcurement st [] ⟨k, t, price⟩ newId false false).2.2 newId false).2.2 =
      [] := by
  have hcreate : createProcurement st [] ⟨k, t, price⟩ newId false false =
      (.ok (), replace k ⟨r0.stockKg + t, price⟩ st, [(newId, ⟨k, t, price⟩)]) := by
    simp only [createProcurement, Bool.false_eq_true, if_false]
    rw [fOAUup_of_lookup_some _ _ hl]
    rfl
  rw [hcreate]
  have hl1 : lookup (replace k ⟨r0.stockKg + t, price⟩ st) k =
      some ⟨r0.stockKg + t, price⟩ := lookup_replace_self hl
  have hdel : deleteProcurementById (replace k ⟨r0.stockKg + t, price⟩ st)
      [(newId, ⟨k, t, price⟩)] newId false =
      (.ok (), replace k ⟨r0.stockKg, price⟩ st, []) := by
    simp only [deleteProcurementById, lookupId, eq_self_iff_true, if_true]
    rw [fOAU_of_lookup_pos (fun r => t ≤ r.stockKg)
      (fun r => { r with stockKg := r.stockKg - t }) hl1
      (by simp; exact h0)]
    dsimp only
    rw [replace_replace]
    simp only [Bool.false_eq_true, if_false, add_sub_cancel_right, removeId,
      eq_self_iff_true, if_true]
  rw [hdel]
  exact ⟨rfl, rfl, rfl, rfl⟩

theorem create_delete_restores_quantity_witness :
    (createProcurement [(⟨"Beans", "Grain", "Maganjo"⟩, ⟨100, 50⟩)] []
        ⟨⟨"Beans", "Grain", "Maganjo"⟩, 200, 70⟩ 3 false false).1 = .ok () ∧
    (deleteProcurementById
        (createProcurement [(⟨"Beans", "Grain", "Maganjo"⟩, ⟨100, 50⟩)] []
          ⟨⟨"Beans", "Grain", "Maganjo"⟩, 200, 70⟩ 3 false false).2.1
        (createProcurement [(⟨"Beans", "Grain", "Maganjo"⟩, ⟨100, 50⟩)] []
          ⟨⟨"Beans", "Grain", "Maganjo"⟩, 200, 70⟩ 3 false false).2.2 3 false).1 =
      .ok () ∧
    (deleteProcurementById
        (createProcurement [(⟨"Beans", "Grain", "Maganjo"⟩, ⟨100, 50⟩)] []
          ⟨⟨"Beans", "Grain", "Maganjo"⟩, 200, 70⟩ 3 false false).2.1
        (createProcurement [(⟨"Beans", "Grain", "Maganjo"⟩, ⟨100, 50⟩)] []
          ⟨⟨"Beans", "Grain", "Maganjo"⟩, 200, 70⟩ 3 false false).2.2 3 false).2.1 =
      replace ⟨"Beans", "Grain", "Maganjo"⟩ ⟨(100 : ℚ), 70⟩
        [(⟨"Beans", "Grain", "Maganjo"⟩, ⟨100, 50⟩)] ∧
    (deleteProcurementById
        (createProcurement [(⟨"Beans", "Grain", "Maganjo"⟩, ⟨100, 50⟩)] []
          ⟨⟨"Beans", "Grain", "Maganjo"⟩, 200, 70⟩ 3 false false).2.1
        (createProcurement [(⟨"Beans", "Grain", "Maganjo"⟩, ⟨100, 50⟩)] []
          ⟨⟨"Beans", "Grain", "Maganjo"⟩, 200, 70⟩ 3 false false).2.2 3 false).2.2 =
      [] :=
  @create_delete_restores_quantity [(⟨"Beans", "Grain", "Maganjo"⟩, ⟨100, 50⟩)]
    ⟨"Beans", "Grain", "Maganjo"⟩ ⟨100, 50⟩ 200 70 3 (by decide) (by norm_num)

/-! ## C4: key-changing procurement revision -/

/-- C4: a procurement revision that changes the identity key first retracts
oldTonnage from the old key under the `stockKg ≥ oldTonnage` guard — refusing
with no mutation anywhere when the old key is absent or short (Scenario D) —
then upserts +newTonnage with the new price at the new key; if that second
step throws, the old key is restored exactly before the error is surfaced. -/
theorem procurement_migration_guarded {st : Ledger} {procs : List (ℕ × ProcEvent)}
    {i : ℕ} {b : ProcUpdateBody} {old : ProcEvent}
    (hu : KeysUnique st) (hl : lookupId procs i = some old)
    (hk : ¬ old.key = (mergeProcData old b).key) :
    (lookup st old.key = none → ∀ uf sf : Bool,
      updateProcurementById st procs i b uf sf = (.error .cannotMove, st, procs)) ∧
    (∀ r, lookup st old.key = some r → ¬ old.tonnage ≤ r.stockKg → ∀ uf sf : Bool,
      updateProcurementById st procs i b uf sf = (.error .cannotMove, st, procs)) ∧
    (∀ r, lookup st old.key = some r → old.tonnage ≤ r.stockKg → ∀ sf : Bool,
      updateProcurementById st procs i b true sf = (.error .persistFailed, st, procs)) ∧
    (∀ r, lookup st old.key = some r → old.tonnage ≤ r.stockKg →
      updateProcurementById st procs i b false false =
        (.ok (),
         (fOAUup (mergeProcData old b).key
           (fun r2 => { stockKg := r2.stockKg + (mergeProcData old b).tonnage,
                        sellingPrice := (mergeProcData old b).sellingPrice })
           { stockKg := (mergeProcData old b).tonnage,
             sellingPrice := (mergeProcData old b).sellingPrice }
           (replace old.key { r with stockKg := r.stockKg - old.tonnage } st)).2,
         replaceId procs i (mergeProcData old b))) := by
  refine ⟨?_, ?_, ?_, ?_⟩
  · intro hlr uf sf
    simp only [updateProcurementById, hl]
    rw [applyProcMut_move_absent hk hlr]
  · intro r hlr hs uf sf
    simp only [updateProcurementById, hl]
    rw [applyProcMut_move_insufficient hu hk hlr hs]
  · intro r hlr hs sf
    simp only [updateProcurementById, hl]
    rw [applyProcMut_move_upsertFails hk hlr hs]
  · intro r hlr hs
    simp only [updateProcurementById, hl]
    rw [applyProcMut_move_ok hk hlr hs]
    simp only [Bool.false_eq_true, if_false]

theorem procurement_migration_guarded_witness :
    updateProcurementById
      [(⟨"Beans", "Grain", "Maganjo"⟩, ⟨300, 100⟩)]
      [(0, ⟨⟨"Beans", "Grain", "Maganjo"⟩, 500, 100⟩)]
      0 ⟨none, none, some "Matugga", none, none⟩ false false =
      (.error .cannotMove,
       [(⟨"Beans", "Grain", "Maganjo"⟩, ⟨300, 100⟩)],
       [(0, ⟨⟨"Beans", "Grain", "Maganjo"⟩, 500, 100⟩)]) :=
  (@procurement_migration_guarded
      [(⟨"Beans", "Grain", "Maganjo"⟩, ⟨300, 100⟩)]
      [(0, ⟨⟨"Beans", "Grain", "Maganjo"⟩, 500, 100⟩)]
      0 ⟨none, none, some "Matugga", none, none⟩
      ⟨⟨"Beans", "Grain", "Maganjo"⟩, 500, 100⟩
      (by simp [KeysUnique]) (by decide) (by decide)).2.1
    ⟨300, 100⟩ (by decide) (by norm_num) false false

/-! ## C8: upsert on absent key -/

/-- C8 counterexample: a same-key procurement revision that increases tonnage
(delta = +100 > 0) against an absent ledger key fails with the not-found
error instead of creating the record by upsert. -/
theorem samekey_increase_no_upsert_counterexample :
    applyInventoryForProcurementMutation
      ⟨⟨"Beans", "Grain", "Maganjo"⟩, 100, 50⟩
      ⟨⟨"Beans", "Grain", "Maganjo"⟩, 200, 50⟩ false [] =
      (.error .notFoundForUpdate, []) ∧
    lookup [] (⟨"Beans", "Grain", "Maganjo"⟩ : Key) = none ∧
    (0 : ℚ) < 200 - 100 := by
  refine ⟨?_, rfl, by norm_num⟩
  rw [@applyProcMut_sameKey_inc_absent
    ⟨⟨"Beans", "Grain", "Maganjo"⟩, 100, 50⟩
    ⟨⟨"Beans", "Grain", "Maganjo"⟩, 200, 50⟩ false [] rfl (by norm_num) rfl]

/-- C8 amended: the create-on-absent-key upsert holds for procurement intake
and for the migration's new-key step, but NOT for the same-key revision
increase, which requires an existing record and fails with
"Inventory not found for procurement update". -/
theorem upsert_on_absent_key {st : Ledger} {p : ProcEvent} {newId : ℕ}
    {procs : List (ℕ × ProcEvent)}
    (hl : lookup st p.key = none) :
    (createProcurement st procs p newId false false).2.1 =
      st ++ [(p.key, ⟨p.tonnage, p.sellingPrice⟩)] ∧
    (∀ old r, ¬ old.key = p.key → lookup st old.key = some r →
      old.tonnage ≤ r.stockKg →
      (applyInventoryForProcurementMutation old p false st).2 =
        (replace old.key { r with stockKg := r.stockKg - old.tonnage } st) ++
          [(p.key, ⟨p.tonnage, p.sellingPrice⟩)]) ∧
    (∀ old, old.key = p.key → 0 ≤ p.tonnage - old.tonnage →
      applyInventoryForProcurementMutation old p false st =
        (.error .notFoundForUpdate, st)) := by
  refine ⟨?_, ?_, ?_⟩
  · simp only [createProcurement, Bool.false_eq_true, if_false]
    rw [fOAUup_of_lookup_none _ _ hl]
  · intro old r hk hlr hs
    rw [applyProcMut_move_ok hk hlr hs]
    dsimp only
    have hl2 : lookup (replace old.key { r with stockKg := r.stockKg - old.tonnage } st)
        p.key = none := by
      rw [lookup_replace_ne (fun hc => hk hc.symm)]
      exact hl
    rw [fOAUup_of_lookup_none _ _ hl2]
  · intro old hk hd
    exact applyProcMut_sameKey_inc_absent hk hd (by rw [hk]; exact hl)

theorem upsert_on_absent_key_witness :
    (createProcurement [] [] introPayload 7 false false).2.1 =
      [((⟨"Beans", "Grain", "Maganjo"⟩ : Key), (⟨500, 100⟩ : StockRec))] :=
  ((@upsert_on_absent_key [] introPayload 7 [] rfl).1).trans (by simp [introPayload])

/-! ## C5: resolving an omitted produce type -/

/-- C5: when a sale request omits produceType, the key is resolved from all
records for (produceName, branch): zero matches fail as out-of-stock and
write the "Stock unavailable" manager notification, several matches fail with
AmbiguousProduceType, exactly one match resolves to that record; in both
failure cases the ledger and the sale log are unchanged. -/
theorem omitted_produce_type_resolution {st : Ledger} {sales : List (ℕ × SaleEvent)}
    {ty : SaleType} {p : SalePayload} {newId : ℕ} {pf : Bool}
    (hot : p.produceType = none) :
    (st.filter (fun e => e.1.produceName = p.produceName ∧ e.1.branch = p.branch) = [] →
      createSaleFromPayload st sales ty p newId pf =
        (.error .outOfStock, st, sales, ["Stock unavailable"])) ∧
    (∀ m m2 rest,
      st.filter (fun e => e.1.produceName = p.produceName ∧ e.1.branch = p.branch) =
        m :: m2 :: rest →
      createSaleFromPayload st sales ty p newId pf =
        (.error .ambiguousProduceType, st, sales, [])) ∧
    (∀ m,
      st.filter (fun e => e.1.produceName = p.produceName ∧ e.1.branch = p.branch) = [m] →
      fetchInventoryForSale st p.produceName p.produceType p.branch = .ok (some m)) := by
  refine ⟨?_, ?_, ?_⟩
  · intro hfil
    have hfetch : fetchInventoryForSale st p.produceName p.produceType p.branch =
        .ok none := by
      simp only [fetchInventoryForSale, hot]
      rw [hfil]
    simp only [createSaleFromPayload, hfetch]
  · intro m m2 rest hfil
    have hfetch : fetchInventoryForSale st p.produceName p.produceType p.branch =
        .error .ambiguousProduceType := by
      simp only [fetchInventoryForSale, hot]
      rw [hfil]
    simp only [createSaleFromPayload, hfetch]
  · intro m hfil
    simp only [fetchInventoryForSale, hot]
    rw [hfil]

theorem omitted_produce_type_resolution_witness :
    createSaleFromPayload
      [(⟨"Beans", "TypeA", "Maganjo"⟩, ⟨300, 100⟩),
       (⟨"Beans", "TypeB", "Maganjo"⟩, ⟨400, 120⟩)] []
      .Cash ⟨"Beans", none, "Maganjo", 200, 20000⟩ 0 false =
      (.error .ambiguousProduceType,
       [(⟨"Beans", "TypeA", "Maganjo"⟩, ⟨300, 100⟩),
        (⟨"Beans", "TypeB", "Maganjo"⟩, ⟨400, 120⟩)], [], []) :=
  (omitted_produce_type_resolution rfl).2.1
    (⟨"Beans", "TypeA", "Maganjo"⟩, ⟨300, 100⟩)
    (⟨"Beans", "TypeB", "Maganjo"⟩, ⟨400, 120⟩) [] (by decide)

/-! ## C6: amount tolerance and minimum transaction floor -/

/-- C6 counterexample: a declared amount differing from the ledger-derived
total by EXACTLY 0.01 is rejected with PriceMismatch (`nearlyEqual` uses a
strict `< 0.01` comparison), although the claim says a difference of at most
0.01 is accepted; the ledger is unchanged. -/
theorem price_tolerance_counterexample :
    createSaleFromPayload [(⟨"Beans", "Grain", "Maganjo"⟩, ⟨300, 100⟩)] []
      .Cash ⟨"Beans", some "Grain", "Maganjo", 200, 20000 + 1/100⟩ 0 false =
      (.error .priceMismatch, [(⟨"Beans", "Grain", "Maganjo"⟩, ⟨300, 100⟩)], [], []) ∧
    |(20000 + 1/100 : ℚ) - 100 * 200| ≤ 1/100 := by
  constructor
  · have hlook : lookup [(⟨"Beans", "Grain", "Maganjo"⟩, (⟨300, 100⟩ : StockRec))]
        ⟨"Beans", "Grain", "Maganjo"⟩ = some ⟨300, 100⟩ := by decide
    have hfetch : fetchInventoryForSale
        [(⟨"Beans", "Grain", "Maganjo"⟩, ⟨300, 100⟩)] "Beans" (some "Grain") "Maganjo" =
        .ok (some (⟨"Beans", "Grain", "Maganjo"⟩, ⟨300, 100⟩)) := by
      simp only [fetchInventoryForSale, hlook]
    simp only [createSaleFromPayload, hfetch]
    have habs : |(20000 + 1/100 : ℚ) -
        (⟨300, 100⟩ : StockRec).sellingPrice * 200| = 1/100 := by
      have h1 : ((20000 + 1/100 : ℚ) -
          (⟨300, 100⟩ : StockRec).sellingPrice * 200) = 1/100 := by norm_num
      rw [h1, abs_of_nonneg (by norm_num)]
    rw [if_neg (by norm_num),
      if_pos (by simp only [nearlyEqual, decide_eq_true_eq, not_lt, habs]; exact le_refl _)]
  · have h1 : ((20000 + 1/100 : ℚ) - 100 * 200) = 1/100 := by norm_num
    rw [h1, abs_of_nonneg (by norm_num)]

/-- C6 amended: with the resolved record `inv`, sale creation computes
total = sellingPrice × tonnage; it rejects below-minimum exactly when
total < 10000, and rejects with PriceMismatch exactly when total ≥ 10000 and
the declared amount differs from total by AT LEAST 0.01 (strict tolerance:
only |amount − total| < 0.01 is accepted); in both rejection cases the ledger
and the sale log are unchanged. -/
theorem price_checks {st : Ledger} {sales : List (ℕ × SaleEvent)} {ty : SaleType}
    {p : SalePayload} {newId : ℕ} {pf : Bool} {k : Key} {inv : StockRec}
    (hu : KeysUnique st)
    (hf : fetchInventoryForSale st p.produceName p.produceType p.branch =
      .ok (some (k, inv))) :
    ((createSaleFromPayload st sales ty p newId pf).1 = .error .belowMinimum ↔
      inv.sellingPrice * p.tonnage < 10000) ∧
    ((createSaleFromPayload st sales ty p newId pf).1 = .error .priceMismatch ↔
      (¬ inv.sellingPrice * p.tonnage < 10000 ∧
       1/100 ≤ |p.amount - inv.sellingPrice * p.tonnage|)) ∧
    (inv.sellingPrice * p.tonnage < 10000 ∨
       1/100 ≤ |p.amount - inv.sellingPrice * p.tonnage| →
      (createSaleFromPayload st sales ty p newId pf).2.1 = st ∧
      (createSaleFromPayload st sales ty p newId pf).2.2.1 = sales) := by
  have hlk : lookup st k = some inv := lookup_of_mem_unique hu (fetch_ok_mem hf)
  simp only [createSaleFromPayload, hf]
  by_cases h10 : inv.sellingPrice * p.tonnage < 10000
  · rw [if_pos h10]
    exact ⟨⟨fun _ => h10, fun _ => rfl⟩,
      ⟨fun hc => by simp at hc, fun hc => absurd h10 hc.1⟩,
      fun _ => ⟨rfl, rfl⟩⟩
  · rw [if_neg h10]
    by_cases hne : ¬ nearlyEqual p.amount (inv.sellingPrice * p.tonnage) = true
    · rw [if_pos hne]
      have hge : 1/100 ≤ |p.amount - inv.sellingPrice * p.tonnage| := by
        simp only [nearlyEqual, decide_eq_true_eq, not_lt] at hne
        exact hne
      exact ⟨⟨fun hc => by simp at hc, fun hc => absurd hc h10⟩,
        ⟨fun _ => ⟨h10, hge⟩, fun _ => rfl⟩,
        fun _ => ⟨rfl, rfl⟩⟩
    · rw [if_neg hne]
      have hlt : |p.amount - inv.sellingPrice * p.tonnage| < 1/100 := by
        simp only [nearlyEqual, decide_eq_true_eq, not_not] at hne
        exact hne
      have hnot : ¬ (1/100 ≤ |p.amount - inv.sellingPrice * p.tonnage|) := not_le.mpr hlt
      by_cases hs : p.tonnage ≤ inv.stockKg
      · rw [fOAU_of_lookup_pos (fun r => p.tonnage ≤ r.stockKg)
          (fun r => { r with stockKg := r.stockKg - p.tonnage }) hlk (by simp [hs])]
        dsimp only
        cases pf with
        | true =>
          simp only [eq_self_iff_true, if_true, Bool.false_eq_true, if_false]
          exact ⟨⟨fun hc => by simp at hc, fun hc => absurd hc h10⟩,
            ⟨fun hc => by simp at hc, fun hc => absurd hc.2 hnot⟩,
            fun hc => hc.elim (fun a => absurd a h10) (fun a => absurd a hnot)⟩
        | false =>
          simp only [eq_self_iff_true, if_true, Bool.false_eq_true, if_false]
          exact ⟨⟨fun hc => by simp at hc, fun hc => absurd hc h10⟩,
            ⟨fun hc => by simp at hc, fun hc => absurd hc.2 hnot⟩,
            fun hc => hc.elim (fun a => absurd a h10) (fun a => absurd a hnot)⟩
      · rw [fOAU_of_guard_fail (fun r => p.tonnage ≤ r.stockKg)
          (fun r => { r with stockKg := r.stockKg - p.tonnage }) hu hlk (by simp [hs])]
        dsimp only
        exact ⟨⟨fun hc => by simp at hc, fun hc => absurd hc h10⟩,
          ⟨fun hc => by simp at hc, fun hc => absurd hc.2 hnot⟩,
          fun hc => hc.elim (fun a => absurd a h10) (fun a => absurd a hnot)⟩

set_option maxHeartbeats 1000000 in
theorem price_checks_witness :
    ((createSaleFromPayload [(⟨"Beans", "Grain", "Maganjo"⟩, ⟨300, 100⟩)] []
        .Cash ⟨"Beans", some "Grain", "Maganjo", 200, 20005/1000⟩ 0 false).1 =
      .error .belowMinimum ↔ (100 : ℚ) * 200 < 10000) ∧
    ((createSaleFromPayload [(⟨"Beans", "Grain", "Maganjo"⟩, ⟨300, 100⟩)] []
        .Cash ⟨"Beans", some "Grain", "Maganjo", 200, 20005/1000⟩ 0 false).1 =
      .error .priceMismatch ↔
      (¬ (100 : ℚ) * 200 < 10000 ∧ 1/100 ≤ |(20005/1000 : ℚ) - 100 * 200|)) ∧
    ((100 : ℚ) * 200 < 10000 ∨ 1/100 ≤ |(20005/1000 : ℚ) - 100 * 200| →
      (createSaleFromPayload [(⟨"Beans", "Grain", "Maganjo"⟩, ⟨300, 100⟩)] []
        .Cash ⟨"Beans", some "Grain", "Maganjo", 200, 20005/1000⟩ 0 false).2.1 =
        [(⟨"Beans", "Grain", "Maganjo"⟩, ⟨300, 100⟩)] ∧
      (createSaleFromPayload [(⟨"Beans", "Grain", "Maganjo"⟩, ⟨300, 100⟩)] []
        .Cash ⟨"Beans", some "Grain", "Maganjo", 200, 20005/1000⟩ 0 false).2.2.1 = []) :=
  @price_checks [(⟨"Beans", "Grain", "Maganjo"⟩, ⟨300, 100⟩)] [] .Cash
    ⟨"Beans", some "Grain", "Maganjo", 200, 20005/1000⟩ 0 false
    ⟨"Beans", "Grain", "Maganjo"⟩ ⟨300, 100⟩
    (by simp [KeysUnique])
    (by
      have hlook : lookup [(⟨"Beans", "Grain", "Maganjo"⟩, (⟨300, 100⟩ : StockRec))]
          ⟨"Beans", "Grain", "Maganjo"⟩ = some ⟨300, 100⟩ := by decide
      simp only [fetchInventoryForSale, hlook])

/-! ## C9: same-key sale revision -/

/-- C9: for a sale revision whose resolved key is unchanged: decreasing (or
keeping) the tonnage credits the difference back unconditionally and never
fails for stock reasons, while increasing it debits the difference only under
the sufficiency guard, failing with the insufficient-stock error and leaving
the ledger unchanged when current stock is below the increase (or the record
is absent). -/
theorem sale_revision_same_key {k : Key} {oldT newT : ℚ} {st : Ledger}
    (hu : KeysUnique st) :
    (newT ≤ oldT → ∀ r, lookup st k = some r →
      ∃ rb, applySaleInventoryMutation k k oldT newT st =
        (.ok rb, replace k { r with stockKg := r.stockKg + (oldT - newT) } st)) ∧
    (newT ≤ oldT → lookup st k = none →
      ∃ rb, applySaleInventoryMutation k k oldT newT st = (.ok rb, st)) ∧
    (oldT < newT → ∀ r, lookup st k = some r → newT - oldT ≤ r.stockKg →
      ∃ rb, applySaleInventoryMutation k k oldT newT st =
        (.ok rb, replace k { r with stockKg := r.stockKg - (newT - oldT) } st)) ∧
    (oldT < newT → ∀ r, lookup st k = some r → ¬ newT - oldT ≤ r.stockKg →
      applySaleInventoryMutation k k oldT newT st = (.error .insufficientStock, st)) ∧
    (oldT < newT → lookup st k = none →
      applySaleInventoryMutation k k oldT newT st = (.error .insufficientStock, st)) := by
  refine ⟨?_, ?_, ?_, ?_, ?_⟩
  · intro hd r hlr
    exact ⟨_, applySaleMut_sameKey_dec (sub_nonneg.mpr hd) hlr⟩
  · intro hd hlr
    exact ⟨_, applySaleMut_sameKey_dec_absent (sub_nonneg.mpr hd) hlr⟩
  · intro hlt r hlr hs
    have hd : ¬ 0 ≤ oldT - newT := by
      rw [not_le]
      exact sub_neg.mpr hlt
    have habs : |oldT - newT| = newT - oldT := by
      rw [abs_of_neg (sub_neg.mpr hlt), neg_sub]
    have h2 := applySaleMut_sameKey_inc hd hlr (by rw [habs]; exact hs)
    rw [habs] at h2
    exact ⟨_, h2⟩
  · intro hlt r hlr hs
    have hd : ¬ 0 ≤ oldT - newT := by
      rw [not_le]
      exact sub_neg.mpr hlt
    have habs : |oldT - newT| = newT - oldT := by
      rw [abs_of_neg (sub_neg.mpr hlt), neg_sub]
    exact applySaleMut_sameKey_inc_insufficient hu hd hlr (by rw [habs]; exact hs)
  · intro hlt hlr
    have hd : ¬ 0 ≤ oldT - newT := by
      rw [not_le]
      exact sub_neg.mpr hlt
    exact applySaleMut_sameKey_inc_absent hd hlr

theorem sale_revision_same_key_witness :
    applySaleInventoryMutation
      ⟨"Beans", "Grain", "Maganjo"⟩ ⟨"Beans", "Grain", "Maganjo"⟩ 100 500
      [(⟨"Beans", "Grain", "Maganjo"⟩, ⟨300, 100⟩)] =
      (.error .insufficientStock, [(⟨"Beans", "Grain", "Maganjo"⟩, ⟨300, 100⟩)]) :=
  (@sale_revision_same_key ⟨"Beans", "Grain", "Maganjo"⟩ 100 500
      [(⟨"Beans", "Grain", "Maganjo"⟩, ⟨300, 100⟩)]
      (by simp [KeysUnique])).2.2.2.1
    (by norm_num) ⟨300, 100⟩ (by decide) (by norm_num)

/-! ## C10: sale removal on a missing ledger key -/

/-- C10: deleting a sale whose (produceName, produceType, branch) key has no
ledger record silently credits nothing (the `{upsert: false}` update matches
no document), still deletes the SaleEvent, and reports success rather than a
ledger-key-not-found failure. -/
theorem sale_removal_missing_key {st : Ledger} {sales : List (ℕ × SaleEvent)}
    {i : ℕ} {sale : SaleEvent}
    (hl : lookupId sales i = some sale) (hmiss : lookup st sale.key = none) :
    deleteSaleById st sales i false = (.ok (), st, removeId sales i) := by
  simp only [deleteSaleById, hl]
  rw [fOAU_of_lookup_none (fun _ => true)
    (fun r => { r with stockKg := r.stockKg + sale.tonnage }) hmiss]
  simp

theorem sale_removal_missing_key_witness :
    deleteSaleById []
      [(4, ⟨.Cash, ⟨"Beans", "Grain", "Maganjo"⟩, 200, 100, 20000, 20000⟩)] 4 false =
      (.ok (), [],
       removeId [(4, ⟨.Cash, ⟨"Beans", "Grain", "Maganjo"⟩, 200, 100, 20000, 20000⟩)] 4) :=
  @sale_removal_missing_key []
    [(4, ⟨.Cash, ⟨"Beans", "Grain", "Maganjo"⟩, 200, 100, 20000, 20000⟩)] 4
    ⟨.Cash, ⟨"Beans", "Grain", "Maganjo"⟩, 200, 100, 20000, 20000⟩ (by decide) rfl

/-! ## C7: the staffing floor -/

/-- Bridge between the boolean check and its arithmetic meaning. -/
theorem ensure_eq_false_iff {roster : Roster} {b : String} {role : Role}
    (hrole : role ≠ .Director) :
    ensureMinimumBranchStaff roster b role = false ↔
      countStaff roster b role ≤ (if role = .Manager then 1 else 2) := by
  cases role with
  | Director => exact absurd rfl hrole
  | Manager =>
    simp [ensureMinimumBranchStaff, MIN_BRANCH_STAFF]
  | SalesAgent =>
    simp [ensureMinimumBranchStaff, MIN_BRANCH_STAFF]

/-- C7: removing a roster member, or reassigning their role or branch, is
refused with the StaffingFloorViolation exactly when the current headcount
for (branch, role) is ≤ the floor (1 for Manager, 2 for SalesAgent), leaving
the roster unchanged; deleting the sole manager of a branch always fails with
the roster unchanged; the Director role has no floor entry and is exempt from
the check. -/
theorem staffing_floor_guard {roster : Roster} {i : ℕ} {u : UserRec}
    (hl : lookupId roster i = some u) :
    (∀ b : String, ensureMinimumBranchStaff roster b .Director = true) ∧
    (u.role ≠ .Director →
      (((deleteUserById roster i).1 = .error .staffingFloor) ↔
        countStaff roster u.branch u.role ≤ (if u.role = .Manager then 1 else 2)) ∧
      ((deleteUserById roster i).1 = .error .staffingFloor →
        (deleteUserById roster i).2 = roster)) ∧
    (∀ b : UserUpdateBody, u.role ≠ .Director →
      (b.role.getD u.role ≠ u.role ∨ b.branch.getD u.branch ≠ u.branch) →
      (((updateUserById roster i b).1 = .error .staffingFloor) ↔
        countStaff roster u.branch u.role ≤ (if u.role = .Manager then 1 else 2)) ∧
      ((updateUserById roster i b).1 = .error .staffingFloor →
        (updateUserById roster i b).2 = roster)) ∧
    (u.role = .Manager → countStaff roster u.branch .Manager ≤ 1 →
      deleteUserById roster i = (.error .staffingFloor, roster)) := by
  refine ⟨fun b => rfl, ?_, ?_, ?_⟩
  · intro hd
    simp only [deleteUserById, hl]
    rw [if_neg hd]
    by_cases hens : ensureMinimumBranchStaff roster u.branch u.role = true
    · rw [if_neg (by simp [hens])]
      constructor
      · constructor
        · intro hc
          simp at hc
        · intro hcount
          have hfalse : ensureMinimumBranchStaff roster u.branch u.role = false :=
            (ensure_eq_false_iff hd).mpr hcount
          rw [hfalse] at hens
          simp at hens
      · intro hc
        simp at hc
    · have hfalse : ensureMinimumBranchStaff roster u.branch u.role = false := by
        cases hp : ensureMinimumBranchStaff roster u.branch u.role with
        | true => exact absurd hp hens
        | false => rfl
      rw [if_pos (by simp [hfalse])]
      exact ⟨⟨fun _ => (ensure_eq_false_iff hd).mp hfalse, fun _ => rfl⟩, fun _ => rfl⟩
  · intro b hd hchg
    simp only [updateUserById, hl]
    rw [if_neg hd]
    by_cases hens : ensureMinimumBranchStaff roster u.branch u.role = true
    · rw [if_neg (by simp [hens])]
      have hnot : ¬ countStaff roster u.branch u.role ≤
          (if u.role = .Manager then 1 else 2) := by
        intro hcount
        have hfalse : ensureMinimumBranchStaff roster u.branch u.role = false :=
          (ensure_eq_false_iff hd).mpr hcount
        rw [hfalse] at hens
        simp at hens
      by_cases hr : b.role.getD u.role = .SalesAgent
      · rw [if_pos hr]
        cases hslot : b.staffSlot with
        | some sl =>
          exact ⟨⟨fun hc => by simp at hc, fun hc => absurd hc hnot⟩,
            fun hc => by simp at hc⟩
        | none =>
          cases huslot : u.staffSlot with
          | none =>
            exact ⟨⟨fun hc => by simp at hc, fun hc => absurd hc hnot⟩,
              fun hc => by simp at hc⟩
          | some s0 =>
            exact ⟨⟨fun hc => by simp at hc, fun hc => absurd hc hnot⟩,
              fun hc => by simp at hc⟩
      · rw [if_neg hr]
        exact ⟨⟨fun hc => by simp at hc, fun hc => absurd hc hnot⟩,
          fun hc => by simp at hc⟩
    · have hfalse : ensureMinimumBranchStaff roster u.branch u.role = false := by
        cases hp : ensureMinimumBranchStaff roster u.branch u.role with
        | true => exact absurd hp hens
        | false => rfl
      rw [if_pos ⟨hchg, by simp [hfalse]⟩]
      exact ⟨⟨fun _ => (ensure_eq_false_iff hd).mp hfalse, fun _ => rfl⟩, fun _ => rfl⟩
  · intro hman hcount
    simp only [deleteUserById, hl]
    have hd : u.role ≠ .Director := by
      rw [hman]
      simp
    rw [if_neg hd]
    have hfalse : ensureMinimumBranchStaff roster u.branch u.role = false := by
      rw [ensure_eq_false_iff hd, hman, if_pos rfl]
      exact hcount
    rw [if_pos (by simp [hfalse])]

theorem staffing_floor_guard_witness :
    deleteUserById [(0, ⟨.Manager, "Maganjo", none⟩)] 0 =
      (.error .staffingFloor, [(0, ⟨.Manager, "Maganjo", none⟩)]) :=
  (@staffing_floor_guard [(0, ⟨.Manager, "Maganjo", none⟩)] 0
      ⟨.Manager, "Maganjo", none⟩ (by decide)).2.2.2 rfl (by decide)

end KGL
